import Mathlib

/-!
Verification development for the HOMELIOR rule engine
(`src/homelior_rules.py` of PIXELCRM-IA).

Texts are modelled as `List Char`.  Python regular-expression searches are
embedded as dedicated scanning functions, one per pattern occurring in the
source; each scanner reproduces the leftmost-match semantics of `re.search`
for its pattern (the patterns involved are deterministic: every bounded or
starred sub-pattern is followed by a character class disjoint from it, so
greedy matching never needs to backtrack into a shorter alternative, as noted
at each definition).

Modelling notes for Python pieces that live outside the repository (the
standard library), each kept next to its definition:
* `unicodedata.normalize("NFKD", ·)` with combining-mark stripping and
  `str.lower()` are modelled per character; the accent table covers the
  Latin-1 / Latin-Extended letters (the OCR texts the program matches are
  French), `str.lower` is modelled on ASCII.
* `re` character classes: `\s` is the Unicode whitespace set Python uses,
  `\d` is modelled as the ASCII digits, `\w` as ASCII alphanumerics plus
  underscore.
* `float(...)` is modelled by correctly-rounded IEEE-754 double-precision
  parsing, with a finite double carried as an exact integer pair `m * 2^e`
  (`inf`/`-inf`/`nan` as separate constructors); `float`-subtraction and the
  comparison against the literal `0.01` round exactly as IEEE doubles do.
  Underscored literals are not modelled.
-/

namespace Homelior

/-- No-break space U+00A0 (`" "` in the source). -/
def nbsp : Char := Char.ofNat 160

/-- Apostrophe, kept out of string literals. -/
def apos : Char := Char.ofNat 39

/-- Decodes a string literal in which `§` stands for an apostrophe; used to
write the French message texts of the source verbatim. -/
def deA (s : String) : List Char := s.data.map (fun c => if c = '§' then apos else c)

/-- Python's `\s` / `str.isspace` character set for `str` patterns. -/
def isPySpace (c : Char) : Bool :=
  c = ' ' || c = '\t' || c = '\n' || c = Char.ofNat 13 || c = Char.ofNat 11 ||
  c = Char.ofNat 12 || c = Char.ofNat 0x1c || c = Char.ofNat 0x1d ||
  c = Char.ofNat 0x1e || c = Char.ofNat 0x1f || c = Char.ofNat 0x85 ||
  c = nbsp || c = Char.ofNat 0x1680 ||
  (0x2000 ≤ c.val && c.val ≤ 0x200a) || c = Char.ofNat 0x2028 ||
  c = Char.ofNat 0x2029 || c = Char.ofNat 0x202f || c = Char.ofNat 0x205f ||
  c = Char.ofNat 0x3000

/-- Python's `\w` (word character), modelled on ASCII. -/
def isWordC (c : Char) : Bool := c.isAlphanum || c = '_'

/-- Python's `\d`, modelled as the ASCII digits (explicit disjunction, so
digit characters can be enumerated in proofs). -/
def isDigitC (c : Char) : Bool :=
  c = '0' || c = '1' || c = '2' || c = '3' || c = '4' ||
  c = '5' || c = '6' || c = '7' || c = '8' || c = '9'

/-- Python's `str.lower`, modelled on ASCII (explicit 26-case table). -/
def pyLowerC (c : Char) : Char :=
  match c with
  | 'A' => 'a' | 'B' => 'b' | 'C' => 'c' | 'D' => 'd' | 'E' => 'e'
  | 'F' => 'f' | 'G' => 'g' | 'H' => 'h' | 'I' => 'i' | 'J' => 'j'
  | 'K' => 'k' | 'L' => 'l' | 'M' => 'm' | 'N' => 'n' | 'O' => 'o'
  | 'P' => 'p' | 'Q' => 'q' | 'R' => 'r' | 'S' => 's' | 'T' => 't'
  | 'U' => 'u' | 'V' => 'v' | 'W' => 'w' | 'X' => 'x' | 'Y' => 'y'
  | 'Z' => 'z' | other => other

/-- Lower-casing of a text (`str.lower`). -/
def lowerL (xs : List Char) : List Char := xs.map pyLowerC

/-- A combining mark (the block U+0300–U+036F); these are the characters
`unicodedata.combining` reports for decomposed French letters. -/
def combiningMark (c : Char) : Bool := 0x300 ≤ c.val && c.val ≤ 0x36f

/-- NFKD decompositions of the accented Latin letters the engine meets,
with the combining mark already dropped: each accented letter maps to its
base letter.  Keys are non-ASCII; values are ASCII letters. -/
def accentTable : List (Char × Char) :=
  [('À', 'A'), ('Á', 'A'), ('Â', 'A'), ('Ã', 'A'), ('Ä', 'A'), ('Å', 'A'),
   ('Ç', 'C'), ('È', 'E'), ('É', 'E'), ('Ê', 'E'), ('Ë', 'E'),
   ('Ì', 'I'), ('Í', 'I'), ('Î', 'I'), ('Ï', 'I'), ('Ñ', 'N'),
   ('Ò', 'O'), ('Ó', 'O'), ('Ô', 'O'), ('Õ', 'O'), ('Ö', 'O'),
   ('Ù', 'U'), ('Ú', 'U'), ('Û', 'U'), ('Ü', 'U'), ('Ý', 'Y'),
   ('à', 'a'), ('á', 'a'), ('â', 'a'), ('ã', 'a'), ('ä', 'a'), ('å', 'a'),
   ('ç', 'c'), ('è', 'e'), ('é', 'e'), ('ê', 'e'), ('ë', 'e'),
   ('ì', 'i'), ('í', 'i'), ('î', 'i'), ('ï', 'i'), ('ñ', 'n'),
   ('ò', 'o'), ('ó', 'o'), ('ô', 'o'), ('õ', 'o'), ('ö', 'o'),
   ('ù', 'u'), ('ú', 'u'), ('û', 'u'), ('ü', 'u'), ('ý', 'y'), ('ÿ', 'y')]

/-- Base letter of an accented letter, if tabled. -/
def accentBase (c : Char) : Option Char :=
  (accentTable.find? (fun p => p.1 = c)).map (fun p => p.2)

/-- Per-character model of `unicodedata.normalize("NFKD", s)` followed by
dropping the characters with `unicodedata.combining(c)` nonzero:
a combining mark disappears, an accented letter decomposes to its base
letter (the mark being dropped), the no-break space compatibility-decomposes
to a plain space, anything else is unchanged. -/
def nfkdStrip (c : Char) : List Char :=
  if combiningMark c then []
  else if c = nbsp then [' ']
  else
    match accentBase c with
    | some b => [b]
    | none => [c]

/-- The character phase of `_normalize`: NFKD + combining-strip, then
`str.lower` (the source lowers the whole string after stripping; per
character the two compose). -/
def charFold (c : Char) : List Char := (nfkdStrip c).map pyLowerC

/-- `s.replace(" ", " ")` (line 31 of the source). -/
def replaceNbsp (xs : List Char) : List Char :=
  xs.map (fun c => if c = nbsp then ' ' else c)

/-- `re.sub(r"\s+", " ", s)`: every maximal run of whitespace becomes one
space.  The flag records whether we are inside a run whose single output
space was already emitted. -/
def collapseAux : Bool → List Char → List Char
  | _, [] => []
  | false, c :: rest =>
      if isPySpace c then ' ' :: collapseAux true rest
      else c :: collapseAux false rest
  | true, c :: rest =>
      if isPySpace c then collapseAux true rest
      else c :: collapseAux false rest

/-- `re.sub(r"\s+", " ", s)`. -/
def collapseWs (xs : List Char) : List Char := collapseAux false xs

/-- Python `str.strip()`: drop leading and trailing (Unicode) whitespace. -/
def pyStrip (xs : List Char) : List Char :=
  ((xs.dropWhile isPySpace).reverse.dropWhile isPySpace).reverse

/-- `_normalize` (lines 19–33 of the source): NFKD with combining-mark
stripping, lower-casing, no-break-space replacement, whitespace collapsing,
trimming.  (`if not s: return ""` is subsumed: every step maps `[]` to
`[]`.) -/
def pyNormalize (s : List Char) : List Char :=
  pyStrip (collapseWs (replaceNbsp ((s.map charFold).flatten)))

/-! ## Pattern scanners (one per regular expression of the source) -/

/-- Match `lit` as a prefix of `xs`, returning the remainder. -/
def stripPrefixL : List Char → List Char → Option (List Char)
  | [], r => some r
  | _ :: _, [] => none
  | a :: as, b :: bs => if a = b then stripPrefixL as bs else none

/-- `needle in hay` (Python substring test). -/
def containsSub (hay needle : List Char) : Bool :=
  match hay with
  | [] => (stripPrefixL needle []).isSome
  | _ :: t => (stripPrefixL needle hay).isSome || containsSub t needle

/-- `re.search` for a pattern that begins with the literal `label`: try every
start position from the left; at a position where `label` matches, `k`
decides whether the rest of the pattern matches there; on failure the search
moves one position right (exactly the engine's behaviour, since a match can
only start where the literal matches). -/
def scanFirst (label : List Char) (k : List Char → Option α) : List Char → Option α
  | [] => none
  | c :: t =>
      match stripPrefixL label (c :: t) with
      | some r =>
          match k r with
          | some v => some v
          | none => scanFirst label k t
      | none => scanFirst label k t

/-- Like `scanFirst` but the pattern starts with `\b` before `label` (whose
first character is a word character): the previous character must not be a
word character.  `prevW` tracks whether the previous character is one. -/
def scanFirstB (label : List Char) (k : List Char → Option α) : Bool → List Char → Option α
  | _, [] => none
  | prevW, c :: t =>
      match if prevW then none else stripPrefixL label (c :: t) with
      | some r =>
          match k r with
          | some v => some v
          | none => scanFirstB label k (isWordC c) t
      | none => scanFirstB label k (isWordC c) t

/-- Anchored `\d{2}/\d{2}/\d{4}`: returns the ten matched characters and the
remainder. -/
def matchDateTok : List Char → Option (List Char × List Char)
  | d1 :: d2 :: '/' :: m1 :: m2 :: '/' :: y1 :: y2 :: y3 :: y4 :: rest =>
      if isDigitC d1 && isDigitC d2 && isDigitC m1 && isDigitC m2 &&
         isDigitC y1 && isDigitC y2 && isDigitC y3 && isDigitC y4 then
        some ([d1, d2, '/', m1, m2, '/', y1, y2, y3, y4], rest)
      else none
  | _ => none

/-- After a date token, `\b` requires the next character not to be a word
character (the token ends in a digit). -/
def noWordHead : List Char → Bool
  | [] => true
  | c :: _ => !(isWordC c)

/-- `_find_date_any` (lines 47–52): first `\b(\d{2}/\d{2}/\d{4})\b` in the
text.  The token starts and ends with digits, so the surrounding `\b`s say
exactly: previous and following characters are not word characters. -/
def findDateAnyAux : Bool → List Char → Option (List Char)
  | _, [] => none
  | prevW, c :: t =>
      match if prevW then none else matchDateTok (c :: t) with
      | some (tok, after) =>
          if noWordHead after then some tok else findDateAnyAux (isWordC c) t
      | none => findDateAnyAux (isWordC c) t

/-- `_find_date_any`. -/
def findDateAny (text : List Char) : Option (List Char) := findDateAnyAux false text

/-- The suffix of the pattern `label\s*[:\-]?\s*(\d{2}/\d{2}/\d{4})` after
the literal: greedily skip whitespace, an optional `:` or `-`, whitespace,
then the date token.  Greedy = deterministic here: the whitespace class,
the separator class and `\d` are pairwise disjoint, so no backtracked split
can succeed where this one fails. -/
def afterLabelDate (r : List Char) : Option (List Char) :=
  let r1 := r.dropWhile isPySpace
  let r2 := match r1 with
    | ':' :: t => t
    | '-' :: t => t
    | _ => r1
  let r3 := r2.dropWhile isPySpace
  (matchDateTok r3).map (fun p => p.1)

/-- `re.search(r"date de cette proposition\s*[:\-]?\s*(\d{2}/\d{2}/\d{4})", ...)`
(lines 112–116 and 318–322; `re.IGNORECASE` is moot: the searched text is
the lower-cased normalization). -/
def findPropDate (text : List Char) : Option (List Char) :=
  scanFirst ("date de cette proposition".data) afterLabelDate text

/-- `re.search(r"date de facture\s*[:\-]?\s*(\d{2}/\d{2}/\d{4})", ...)`
(lines 140–144). -/
def findFactureDate (text : List Char) : Option (List Char) :=
  scanFirst ("date de facture".data) afterLabelDate text

/-- The suffix of `devis[^0-9]{0,30}(\d{2}/\d{2}/\d{4})` after `devis`: the
gap `[^0-9]{0,30}` must end exactly at the first digit (the date starts with
a digit and the gap excludes digits, so no other split exists), and its
length is at most 30. -/
def devisRefAfter (r : List Char) : Option (List Char) :=
  let gap := r.takeWhile (fun c => !isDigitC c)
  if gap.length ≤ 30 then (matchDateTok (r.drop gap.length)).map (fun p => p.1)
  else none

/-- `re.search(r"devis[^0-9]{0,30}(\d{2}/\d{2}/\d{4})", fac_norm)`
(lines 128–132). -/
def findDevisRef (text : List Char) : Option (List Char) :=
  scanFirst ("devis".data) devisRefAfter text

/-- Anchored amount pattern `\d[\d\s]*[.,]\d{2}`: a digit, then the maximal
run of digits/whitespace (maximal = only possibility: the separator class
`[.,]` is disjoint from `[\d\s]`), a decimal separator, two digits.  Returns
the captured characters. -/
def matchAmount : List Char → Option (List Char)
  | [] => none
  | c :: rest =>
      if isDigitC c then
        let run := rest.takeWhile (fun x => isDigitC x || isPySpace x)
        match rest.drop run.length with
        | s :: a :: b :: _ =>
            if (s = '.' || s = ',') && isDigitC a && isDigitC b then
              some (c :: (run ++ [s, a, b]))
            else none
        | _ => none
      else none

/-- The suffix of `mise en place de luminaires neufs.*?(\d[\d\s]*[.,]\d{2})`
after the phrase: the lazy `.*?` tries the amount at each following
position, left to right, and cannot cross a newline (`.` excludes `\n`). -/
def scanAmountNoNl : List Char → Option (List Char)
  | [] => none
  | c :: t =>
      match matchAmount (c :: t) with
      | some cap => some cap
      | none => if c = '\n' then none else scanAmountNoNl t

/-- `re.search(r"mise en place de luminaires neufs.*?(\d[\d\s]*[.,]\d{2})", zone)`
(lines 216–219). -/
def findPriceAfter (text : List Char) : Option (List Char) :=
  scanFirst ("mise en place de luminaires neufs".data) scanAmountNoNl text

/-- The suffix of `une prime d un montant de\s+(\d[\d\s]*[.,]\d{2})` after
the phrase: at least one whitespace character (greedily all of them — the
amount starts with a digit), then the amount. -/
def primeAfter (r : List Char) : Option (List Char) :=
  let sp := r.takeWhile isPySpace
  if sp.length = 0 then none else matchAmount (r.drop sp.length)

/-- `re.search(r"une prime d un montant de\s+(\d[\d\s]*[.,]\d{2})", cadre_norm)`
(lines 287–290). -/
def findPrimeAmount (text : List Char) : Option (List Char) :=
  scanFirst ("une prime d un montant de".data) primeAfter text

/-- The suffix of `reste a payer\s*0\.0{2}` after the phrase. -/
def restePayerAfter (r : List Char) : Option Unit :=
  if (stripPrefixL ("0.00".data) (r.dropWhile isPySpace)).isSome then some () else none

/-- `re.search(r"reste a payer\s*0\.0{2}", ...)` (lines 258 and 357). -/
def hasRestePayer (text : List Char) : Bool :=
  (scanFirst ("reste a payer".data) restePayerAfter text).isSome

/-- The suffix of `devis\s+2024[- ]?\d{4,}` after `devis`: at least one
whitespace character, the literal `2024`, an optional `-` or space (if taken
but not followed by a digit, dropping it cannot help: `-`/space are not
digits), then at least four digits. -/
def headerAfter (r : List Char) : Option Unit :=
  let sp := r.takeWhile isPySpace
  if sp.length = 0 then none
  else
    match stripPrefixL ("2024".data) (r.drop sp.length) with
    | some r2 =>
        let r3 := match r2 with
          | '-' :: t => t
          | ' ' :: t => t
          | _ => r2
        if 4 ≤ (r3.takeWhile isDigitC).length then some () else none
    | none => none

/-- `re.search(r"devis\s+2024[- ]?\d{4,}", devis_norm)` (line 182). -/
def hasDevisHeader (text : List Char) : Bool :=
  (scanFirst ("devis".data) headerAfter text).isSome

/-- `re.search(r"\ble\s*[:\-]?\s*(\d{2}/\d{2}/\d{4})", aft_norm)` (line 404);
the tail after `le` is the same shape as the labeled-date patterns. -/
def findAftDate (text : List Char) : Option (List Char) :=
  scanFirstB ("le".data) afterLabelDate false text

/-! ## Dates -/

/-- A calendar date as `datetime.date` holds it. -/
structure PyDate where
  year : Nat
  month : Nat
  day : Nat
deriving DecidableEq

/-- Proleptic-Gregorian leap year (`datetime`'s calendar). -/
def isLeap (y : Nat) : Bool := y % 4 = 0 && (y % 100 ≠ 0 || y % 400 = 0)

/-- Days in a month. -/
def daysInMonth (y m : Nat) : Nat :=
  if m = 2 then (if isLeap y then 29 else 28)
  else if m = 4 || m = 6 || m = 9 || m = 11 then 30
  else 31

/-- Numeric value of an ASCII digit. -/
def digitVal (c : Char) : Nat := c.toNat - 48

/-- `_parse_date` (lines 36–44): `datetime.strptime(s, "%d/%m/%Y")` on the
ten-character captures `dd/mm/yyyy`, `None` when the literal is not a valid
calendar date (month 1–12, day within the month, year ≥ 1). -/
def parseDate : List Char → Option PyDate
  | [d1, d2, '/', m1, m2, '/', y1, y2, y3, y4] =>
      if isDigitC d1 && isDigitC d2 && isDigitC m1 && isDigitC m2 &&
         isDigitC y1 && isDigitC y2 && isDigitC y3 && isDigitC y4 then
        let d := 10 * digitVal d1 + digitVal d2
        let m := 10 * digitVal m1 + digitVal m2
        let y := 1000 * digitVal y1 + 100 * digitVal y2 + 10 * digitVal y3 + digitVal y4
        if 1 ≤ y && 1 ≤ m && m ≤ 12 && 1 ≤ d && d ≤ daysInMonth y m then
          some ⟨y, m, d⟩
        else none
      else none
  | _ => none

/-- `date` comparison (`datetime.date` orders lexicographically on
year, month, day). -/
def dateLe (a b : PyDate) : Bool :=
  a.year < b.year || (a.year = b.year &&
    (a.month < b.month || (a.month = b.month && a.day ≤ b.day)))

/-- ASCII digit of `n < 10`. -/
def digitChar (n : Nat) : Char :=
  match n with
  | 0 => '0' | 1 => '1' | 2 => '2' | 3 => '3' | 4 => '4'
  | 5 => '5' | 6 => '6' | 7 => '7' | 8 => '8' | 9 => '9'
  | _ => '9'

/-- Two-digit zero-padded field (`%d`, `%m`). -/
def pad2 (n : Nat) : List Char := [digitChar (n / 10 % 10), digitChar (n % 10)]

/-- `%Y`: unpadded decimal year (years from `parseDate` are ≤ 9999). -/
def year4 (y : Nat) : List Char :=
  if 1000 ≤ y then [digitChar (y / 1000 % 10), digitChar (y / 100 % 10), digitChar (y / 10 % 10), digitChar (y % 10)]
  else if 100 ≤ y then [digitChar (y / 100 % 10), digitChar (y / 10 % 10), digitChar (y % 10)]
  else if 10 ≤ y then [digitChar (y / 10 % 10), digitChar (y % 10)]
  else [digitChar (y % 10)]

/-- `d.strftime("%d/%m/%Y")`. -/
def fmtDate (d : PyDate) : List Char := pad2 d.day ++ '/' :: pad2 d.month ++ '/' :: year4 d.year

/-! ## Document classification -/

/-- A classified document: filename, raw text, normalized text. -/
structure FoundDoc where
  name : List Char
  text : List Char
  norm : List Char
deriving DecidableEq

/-- `_find_doc_by_name` (lines 55–67): first file whose lower-cased name
contains every keyword. -/
def findDocByName : List (List Char × List Char) → List (List Char) → Option FoundDoc
  | [], _ => none
  | (n, c) :: rest, kws =>
      if kws.all (fun k => containsSub (lowerL n) k) then
        some ⟨n, c, pyNormalize c⟩
      else findDocByName rest kws

/-- `a or b` on two optional documents (a tuple is always truthy). -/
def orDoc (a b : Option FoundDoc) : Option FoundDoc :=
  match a with
  | some d => some d
  | none => b

/-- The honor-statement (AH) binding (lines 92–94). -/
def classifyAh (pdfTexts : List (List Char × List Char)) : Option FoundDoc :=
  orDoc (findDocByName pdfTexts ["ah".data])
        (findDocByName pdfTexts ["attestation".data, "honneur".data])

/-- The completion-certificate (AFT) binding (lines 95–97). -/
def classifyAft (pdfTexts : List (List Char × List Char)) : Option FoundDoc :=
  orDoc (findDocByName pdfTexts ["aft".data])
        (findDocByName pdfTexts ["fin".data, "travaux".data])

/-! ## Python floats (IEEE-754 binary64, exactly represented)

A finite double is carried as an exact pair `m * 2^e`; `float(...)` parsing,
subtraction and comparisons are correctly rounded / exact, as CPython's are.
Only integer arithmetic is used, so everything evaluates by `decide`. -/

/-- A finite double, the exact value `m * 2^e`. -/
structure Dbl where
  m : ℤ
  e : ℤ
deriving DecidableEq

/-- A Python float. -/
inductive PyF where
  | fin (d : Dbl)
  | inf
  | ninf
  | nan
deriving DecidableEq

/-- Fuel-driven binary length: `bitLen n` is the number of binary digits of
`n` (0 for 0); fuel `n` always suffices since `log2 n + 1 ≤ n` for `n ≥ 1`. -/
def bitLenAux : Nat → Nat → Nat
  | 0, _ => 0
  | fuel + 1, n => if n = 0 then 0 else bitLenAux fuel (n / 2) + 1

/-- Number of binary digits. -/
def bitLen (n : Nat) : Nat := bitLenAux n n

/-- Decides `a / b ≥ 2^k` for positive naturals. -/
def qGePow2 (a b : Nat) (k : ℤ) : Bool :=
  match k with
  | .ofNat n => decide (b * 2 ^ n ≤ a)
  | .negSucc n => decide (b ≤ a * 2 ^ (n + 1))

/-- The binade of `a / b` (positive): the unique `k` with
`2^(k-1) ≤ a/b < 2^k`, located from the bit lengths and one comparison. -/
def qBinade (a b : Nat) : ℤ :=
  let k0 : ℤ := (bitLen a : ℤ) - (bitLen b : ℤ)
  if qGePow2 a b k0 then k0 + 1 else k0

/-- Round `a / b` (`b > 0`) to a natural number, ties to even. -/
def divRound (a b : Nat) : Nat :=
  let q := a / b
  let r := a % b
  if 2 * r < b then q
  else if b < 2 * r then q + 1
  else if q % 2 = 0 then q else q + 1

/-- Round `(a / b) * 2^(-e)` to a natural number, ties to even. -/
def roundScaled (a b : Nat) (e : ℤ) : Nat :=
  match e with
  | .ofNat n => divRound a (b * 2 ^ n)
  | .negSucc n => divRound (a * 2 ^ (n + 1)) b

/-- Correctly round the positive rational `a / b` to the nearest binary64
value (ties to even), overflowing to `inf`; subnormals round at exponent
`-1074`. -/
def roundPos (a b : Nat) : PyF :=
  let k := qBinade a b
  let e : ℤ := max (k - 53) (-1074)
  let m := roundScaled a b e
  if 1024 ≤ k && 2 ^ ((1024 - e).toNat) ≤ m then .inf
  else .fin ⟨(m : ℤ), e⟩

/-- Correctly round the rational `± a / b` to a double. -/
def roundSigned (neg : Bool) (a b : Nat) : PyF :=
  if a = 0 then .fin ⟨0, 0⟩
  else
    match roundPos a b with
    | .fin d => .fin (if neg then ⟨-d.m, d.e⟩ else d)
    | .inf => if neg then .ninf else .inf
    | x => x

/-- Round the exact value `m * 2^e` to a double (used after an exact
subtraction). -/
def roundMZ (m : ℤ) (e : ℤ) : PyF :=
  match e with
  | .ofNat n => roundSigned (decide (m < 0)) (m.natAbs * 2 ^ n) 1
  | .negSucc n => roundSigned (decide (m < 0)) m.natAbs (2 ^ (n + 1))

/-- Digit string to natural number. -/
def digitsToNat (ds : List Char) : Nat :=
  ds.foldl (fun a c => a * 10 + digitVal c) 0

/-- Assemble the exact decimal value `±(ip.fp)·10^ex` and round it to a
double (CPython's string-to-float conversion is correctly rounded). -/
def mkFloatVal (neg : Bool) (ip fp : List Char) (ex : ℤ) : PyF :=
  let N := digitsToNat (ip ++ fp)
  match ex - (fp.length : ℤ) with
  | .ofNat n => roundSigned neg (N * 10 ^ n) 1
  | .negSucc n => roundSigned neg N (10 ^ (n + 1))

/-- Exponent part `[eE][+-]?\d+`, requiring the rest to be consumed. -/
def parseExp (r : List Char) : Option ℤ :=
  match r with
  | 'e' :: t | 'E' :: t =>
      let (neg, t1) : Bool × List Char :=
        match t with
        | '+' :: u => (false, u)
        | '-' :: u => (true, u)
        | _ => (false, t)
      let ds := t1.takeWhile isDigitC
      if ds.length = 0 || t1.drop ds.length ≠ [] then none
      else some (if neg then -(digitsToNat ds : ℤ) else (digitsToNat ds : ℤ))
  | _ => none

/-- Magnitude part of a float literal: decimal digits with an optional
point and exponent, or `inf`/`infinity`/`nan` (case-insensitive). -/
def pyFloatMag (r : List Char) (neg : Bool) : Option PyF :=
  if lowerL r = "inf".data || lowerL r = "infinity".data then
    some (if neg then .ninf else .inf)
  else if lowerL r = "nan".data then some .nan
  else
    let ip := r.takeWhile isDigitC
    let r1 := r.drop ip.length
    let (fp, r2) : List Char × List Char :=
      match r1 with
      | '.' :: t => (t.takeWhile isDigitC, t.drop (t.takeWhile isDigitC).length)
      | _ => ([], r1)
    if ip.length = 0 && fp.length = 0 then none
    else
      match r2 with
      | [] => some (mkFloatVal neg ip fp 0)
      | _ =>
          match parseExp r2 with
          | some ex => some (mkFloatVal neg ip fp ex)
          | none => none

/-- `float(s)` (CPython string conversion): surrounding whitespace is
ignored, then an optional sign and the magnitude.  Underscored literals are
not modelled. -/
def pyFloat (s : List Char) : Option PyF :=
  match pyStrip s with
  | '+' :: r => pyFloatMag r false
  | '-' :: r => pyFloatMag r true
  | r => pyFloatMag r false

/-- Float subtraction (`cadre_val - prime_val` etc.): exact difference,
rounded. -/
def pySub : PyF → PyF → PyF
  | .nan, _ => .nan
  | _, .nan => .nan
  | .fin x, .fin y =>
      match x.e - y.e with
      | .ofNat n => roundMZ (x.m * 2 ^ n - y.m) y.e
      | .negSucc n => roundMZ (x.m - y.m * 2 ^ (n + 1)) x.e
  | .fin _, .inf => .ninf
  | .fin _, .ninf => .inf
  | .inf, .fin _ => .inf
  | .ninf, .fin _ => .ninf
  | .inf, .ninf => .inf
  | .ninf, .inf => .ninf
  | .inf, .inf => .nan
  | .ninf, .ninf => .nan

/-- `abs(...)` on floats. -/
def pyAbs : PyF → PyF
  | .fin d => .fin ⟨|d.m|, d.e⟩
  | .nan => .nan
  | _ => .inf

/-- Exact `<` on finite doubles (mantissas compared after aligning the
exponents). -/
def dblLt (a b : Dbl) : Bool :=
  match a.e - b.e with
  | .ofNat n => decide (a.m * 2 ^ n < b.m)
  | .negSucc n => decide (a.m < b.m * 2 ^ (n + 1))

/-- Exact `≤` on finite doubles. -/
def dblLe (a b : Dbl) : Bool :=
  match a.e - b.e with
  | .ofNat n => decide (a.m * 2 ^ n ≤ b.m)
  | .negSucc n => decide (a.m ≤ b.m * 2 ^ (n + 1))

/-- Strict `<` on floats (`nan` compares false). -/
def pyLt : PyF → PyF → Bool
  | .fin a, .fin b => dblLt a b
  | .fin _, .inf => true
  | .ninf, .fin _ => true
  | .ninf, .inf => true
  | _, _ => false

/-- `≤` on floats (`nan` compares false). -/
def pyLe : PyF → PyF → Bool
  | .nan, _ => false
  | _, .nan => false
  | .ninf, _ => true
  | _, .ninf => false
  | _, .inf => true
  | .inf, _ => false
  | .fin a, .fin b => dblLe a b

/-- Semantic equality of floats (`nan` unequal to everything). -/
def pyEqB : PyF → PyF → Bool
  | .fin a, .fin b => !dblLt a b && !dblLt b a
  | .inf, .inf => true
  | .ninf, .ninf => true
  | _, _ => false

/-- The double-precision value of the literal `0.01`. -/
def d001 : PyF := roundSigned false 1 100

/-! ## Problem messages (verbatim from the source; `§` decodes to an
apostrophe, interpolated parts are arguments) -/

/-- Source problem string (verbatim; `§` decodes to an apostrophe). -/
def msgDevisHeader : List Char := deA "DEVIS : l§en-tête de type « DEVIS 2024-xxxxx » n§est pas retrouvé clairement."

/-- Source problem string (verbatim; `§` decodes to an apostrophe). -/
def msgEclairage : List Char := deA "DEVIS : le type d§éclairage « Éclairage ambiance ou privé » n§est pas retrouvé clairement dans les documents (devis / facture / AH)."

/-- Source problem string (verbatim; `§` decodes to an apostrophe). -/
def msgPriceUnparse : List Char := deA "DEVIS : impossible d§interpréter le P.U TTC pour §mise en place de luminaires neufs§."

/-- Source problem string (verbatim; `§` decodes to an apostrophe). -/
def msgPriceNotFound : List Char := deA "DEVIS : aucun P.U TTC clair trouvé pour §mise en place de luminaires neufs§."

/-- Source problem string (verbatim; `§` decodes to an apostrophe). -/
def msgDateUnknown : List Char := deA "DEVIS : impossible de déterminer clairement la date du devis (attendue entre le 01/01/2024 et le 28/02/2024)."

/-- Source problem string (verbatim; `§` decodes to an apostrophe). -/
def msgRestePayerDevis : List Char := deA "DEVIS : la mention « Reste à payer 0,00 € » n§est pas retrouvée clairement."

/-- Source problem string (verbatim; `§` decodes to an apostrophe). -/
def msgDevisNotFound : List Char := deA "DEVIS : aucun document dont le nom contient §DEVIS§ n§a été trouvé."

/-- Source problem string (verbatim; `§` decodes to an apostrophe). -/
def msgPrimePhraseMissing : List Char := deA "CADRE : la phrase « une prime d’un montant de ... euros » n§est pas retrouvée clairement."

/-- Source problem string (verbatim; `§` decodes to an apostrophe). -/
def msgCadreAmountUnparse : List Char := deA "CADRE : impossible d§interpréter le montant de prime dans le cadre."

/-- Source problem string (verbatim; `§` decodes to an apostrophe). -/
def msgPrimeNotExploitable : List Char := deA "CADRE : la phrase avec le montant de prime n§est pas clairement exploitable."

/-- Source problem string (verbatim; `§` decodes to an apostrophe). -/
def msgPropDateMismatch : List Char := deA "CADRE : la « Date de cette proposition » ne correspond pas à la date de devis."

/-- Source problem string (verbatim; `§` decodes to an apostrophe). -/
def msgPropLabelNotFound : List Char := deA "CADRE : la mention « Date de cette proposition » n§a pas été retrouvée clairement."

/-- Source problem string (verbatim; `§` decodes to an apostrophe). -/
def msgCadreNotFound : List Char := deA "CADRE : aucun document dont le nom contient §CADRE§ n§a été trouvé."

/-- Source problem string (verbatim; `§` decodes to an apostrophe). -/
def msgRestePayerFacture : List Char := deA "FACTURE : la mention « Reste à payer 0,00 € » n§est pas retrouvée clairement."

/-- Source problem string (verbatim; `§` decodes to an apostrophe). -/
def msgFactureNotFound : List Char := deA "FACTURE : aucun document dont le nom contient §FACTURE§ n§a été trouvé."

/-- Source problem string (verbatim; `§` decodes to an apostrophe). -/
def msgBlNotFound : List Char := deA "BON DE LIVRAISON : aucun document dont le nom contient §BON DE LIVRAISON§ n§a été trouvé."

/-- Source problem string (verbatim; `§` decodes to an apostrophe). -/
def msgAhIllegible : List Char := deA "AH : document présent mais la mention « attestation sur l§honneur » n§est pas clairement lisible (OCR) – à vérifier manuellement."

/-- Source problem string (verbatim; `§` decodes to an apostrophe). -/
def msgAhNotFound : List Char := deA "AH : aucune attestation sur l§honneur (AH) détectée dans les PDF (à vérifier manuellement)."

/-- Source problem string (verbatim; `§` decodes to an apostrophe). -/
def msgAftNoDate : List Char := deA "AFT : aucune date de type « Le : jj/mm/aaaa » n§a été trouvée clairement en bas de l§attestation de fin de travaux."

/-- Source problem string (verbatim; `§` decodes to an apostrophe). -/
def msgAftNotFound : List Char := deA "AFT : aucune attestation de fin de travaux (AFT) détectée dans les PDF (à vérifier manuellement)."

/-- `f"DEVIS : P.U TTC attendu ≈ 42,315 € pour 'mise en place de luminaires
neufs', trouvé {price_str}."` (lines 227–229). -/
def mkPriceRange (s : List Char) : List Char :=
  deA "DEVIS : P.U TTC attendu ≈ 42,315 € pour §mise en place de luminaires neufs§, trouvé " ++ s ++ ".".data

/-- `f"DEVIS : la date de devis {...} n'est pas comprise entre le 01/01/2024
et le 28/02/2024."` (lines 245–246). -/
def mkDateWindow (d : PyDate) : List Char :=
  "DEVIS : la date de devis ".data ++ fmtDate d ++ deA " n§est pas comprise entre le 01/01/2024 et le 28/02/2024."

/-- `f"CADRE : le montant de prime ({cadre_amount}) ne correspond pas à la
prime CEE saisie ({prime_str})."` (lines 300–301). -/
def mkPrimeMismatch (amt primeStr : List Char) : List Char :=
  "CADRE : le montant de prime (".data ++ amt ++ ") ne correspond pas à la prime CEE saisie (".data ++ primeStr ++ ").".data

/-- `f"CADRE : la prime CEE saisie « {prime_str} » n'est pas interprétable en
montant numérique."` (line 314). -/
def mkPrimeUnparse (primeStr : List Char) : List Char :=
  "CADRE : la prime CEE saisie « ".data ++ primeStr ++ deA " » n§est pas interprétable en montant numérique."

/-- `f"BON DE LIVRAISON : la date du BL ({date_bl}) est différente de la
date de facture ({date_facture})."` (lines 371–372). -/
def mkBlMismatch (db df : PyDate) : List Char :=
  "BON DE LIVRAISON : la date du BL (".data ++ fmtDate db ++ ") est différente de la date de facture (".data ++ fmtDate df ++ ").".data

/-- `f"AFT : la date « Le {m_aft.group(1)} » est différente de la date de
facture ({date_facture})."` (lines 409–410). -/
def mkAftFacture (tok : List Char) (df : PyDate) : List Char :=
  "AFT : la date « Le ".data ++ tok ++ " » est différente de la date de facture (".data ++ fmtDate df ++ ").".data

/-- `f"AFT : la date « Le {m_aft.group(1)} » est différente de la date du bon
de livraison ({date_bl})."` (lines 413–415). -/
def mkAftBl (tok : List Char) (db : PyDate) : List Char :=
  "AFT : la date « Le ".data ++ tok ++ " » est différente de la date du bon de livraison (".data ++ fmtDate db ++ ").".data

/-! ## Shared facts: resolved dates (section 1 of `analyze_homelior`) -/

/-- The loop of lines 157–164: first parseable first-date over the candidate
texts (`break` only after a successful parse). -/
def firstParsedDate : List (List Char) → Option PyDate
  | [] => none
  | t :: ts =>
      match findDateAny t with
      | some s =>
          match parseDate s with
          | some d => some d
          | none => firstParsedDate ts
      | none => firstParsedDate ts

/-- `date_devis` as lines 102–164 compute it: (1.a) the labeled proposal
date on the frame, else (1.b) the `devis …` cross-reference on the invoice,
else (1.c) the first parseable bare date in frame text then invoice text
(the candidate list collects the normalized frame and invoice texts, in that
order, whenever those documents exist). -/
def resolveDateDevis (cadre facture : Option FoundDoc) : Option PyDate :=
  let d1 : Option PyDate :=
    match cadre with
    | some doc =>
        match findPropDate doc.norm with
        | some tok => parseDate tok
        | none => none
    | none => none
  let d2 : Option PyDate :=
    match d1 with
    | some d => some d
    | none =>
        match facture with
        | some doc =>
            match findDevisRef doc.norm with
            | some tok => parseDate tok
            | none => none
        | none => none
  match d2 with
  | some d => some d
  | none =>
      firstParsedDate
        ((match cadre with | some doc => [doc.norm] | none => []) ++
         (match facture with | some doc => [doc.norm] | none => []))

/-- `date_facture` (lines 140–154): the labeled invoice date if its capture
parses, else — only when the label is absent — the first bare date, if it
parses. -/
def resolveDateFacture (facture : Option FoundDoc) : Option PyDate :=
  match facture with
  | some doc =>
      match findFactureDate doc.norm with
      | some tok => parseDate tok
      | none =>
          match findDateAny doc.norm with
          | some s => parseDate s
          | none => none
  | none => none

/-- `date_bl` (lines 167–173). -/
def resolveDateBl (bl : Option FoundDoc) : Option PyDate :=
  match bl with
  | some doc =>
      match findDateAny doc.norm with
      | some s => parseDate s
      | none => none
  | none => none

/-! ## The six rule sections -/

/-- `"mise en place de luminaires neufs"`. -/
def phraseLum : List Char := "mise en place de luminaires neufs".data

/-- `"une prime d un montant de"`. -/
def phrasePrime : List Char := "une prime d un montant de".data

/-- `"Prime CEE"`. -/
def primeKey : List Char := "Prime CEE".data

/-- `dossier.fields.get(key) or ""`: value of the first matching key, `""`
when absent (`or ""` maps both `None` and `""` to `""`). -/
def lookupField : List (List Char × List Char) → List Char → List Char
  | [], _ => []
  | (k, v) :: rest, key => if k = key then v else lookupField rest key

/-- `price_str.replace(" ", "").replace(",", ".")` (line 222). -/
def cleanPrice (s : List Char) : List Char :=
  (s.filter (fun c => c ≠ ' ')).map (fun c => if c = ',' then '.' else c)

/-- `.replace(" ", "").replace(" ", "").replace(",", ".")` (lines 282–283
for the case field, 293–295 for the frame amount). -/
def cleanPrime (s : List Char) : List Char :=
  (s.filter (fun c => c ≠ ' ' && c ≠ nbsp)).map (fun c => if c = ',' then '.' else c)

/-- Lines 255–257 / 343–345: no-break spaces to spaces, commas to dots,
whitespace runs collapsed (no trim). -/
def normSp (t : List Char) : List Char :=
  collapseWs ((t.map (fun c => if c = nbsp then ' ' else c)).map (fun c => if c = ',' then '.' else c))

/-- One target of the lighting-type check (lines 196–202). -/
def eclairageIn (t : List Char) : Bool :=
  (containsSub t ("type d eclairage".data) || containsSub t (deA "type d§eclairage")) &&
  containsSub t ("eclairage ambiance".data) && containsSub t ("prive".data)

/-- `has_eclairage_ambiance_global` (lines 189–203): the quote text, then
the invoice and honor-statement normalized texts when classified. -/
def hasEclairageGlobal (devisNorm : List Char) (facture ah : Option FoundDoc) : Bool :=
  (devisNorm :: ((match facture with | some doc => [doc.norm] | none => []) ++
                 (match ah with | some doc => [doc.norm] | none => []))).any eclairageIn

/-- The double `42.0`. -/
def f42 : PyF := .fin ⟨42, 0⟩

/-- The double `43.0`. -/
def f43 : PyF := .fin ⟨43, 0⟩

/-- `date(2024, 1, 1)`. -/
def dateWinLo : PyDate := ⟨2024, 1, 1⟩

/-- `date(2024, 2, 28)`. -/
def dateWinHi : PyDate := ⟨2024, 2, 28⟩

/-- Section 2 (lines 178–264), the quote rules, in source order: header,
lighting type, unit price (only when the line-item phrase occurs), date
window, zero balance. -/
def devisProblems (devis facture ah : Option FoundDoc) (dateDevis : Option PyDate) :
    List (List Char) :=
  match devis with
  | none => [msgDevisNotFound]
  | some doc =>
      (if hasDevisHeader doc.norm then [] else [msgDevisHeader]) ++
      (if hasEclairageGlobal doc.norm facture ah then [] else [msgEclairage]) ++
      (if containsSub doc.norm phraseLum then
        match findPriceAfter doc.norm with
        | some priceStr =>
            match pyFloat (cleanPrice priceStr) with
            | some v =>
                if pyLe f42 v && pyLe v f43 then [] else [mkPriceRange priceStr]
            | none => [msgPriceUnparse]
        | none => [msgPriceNotFound]
       else []) ++
      (match dateDevis with
       | some d => if dateLe dateWinLo d && dateLe d dateWinHi then [] else [mkDateWindow d]
       | none => [msgDateUnknown]) ++
      (if hasRestePayer (normSp doc.norm) then [] else [msgRestePayerDevis])

/-- Section 3 (lines 269–335), the contribution-frame rules: subsidy phrase
and amount comparison, then the proposal-date check (a present label with an
unparsable or equal date adds nothing; an absent label is reported). -/
def cadreProblems (fields : List (List Char × List Char)) (cadre : Option FoundDoc)
    (dateDevis : Option PyDate) : List (List Char) :=
  match cadre with
  | none => [msgCadreNotFound]
  | some doc =>
      (if !containsSub doc.norm phrasePrime then [msgPrimePhraseMissing]
       else
        let primeStr := pyStrip (lookupField fields primeKey)
        if primeStr.isEmpty then []
        else
          match pyFloat (cleanPrime primeStr) with
          | some primeVal =>
              match findPrimeAmount doc.norm with
              | some amt =>
                  match pyFloat (cleanPrime amt) with
                  | some cv =>
                      if pyLt d001 (pyAbs (pySub cv primeVal)) then
                        [mkPrimeMismatch amt primeStr]
                      else []
                  | none => [msgCadreAmountUnparse]
              | none => [msgPrimeNotExploitable]
          | none => [mkPrimeUnparse primeStr]) ++
      (match findPropDate doc.norm with
       | some tok =>
           match dateDevis with
           | some dd =>
               (match parseDate tok with
                | some dp => if dp ≠ dd then [msgPropDateMismatch] else []
                | none => [])
           | none => []
       | none => [msgPropLabelNotFound])

/-- Section 4 (lines 340–362), the invoice rules (only the zero-balance
check adds problems). -/
def factureProblems (facture : Option FoundDoc) : List (List Char) :=
  match facture with
  | none => [msgFactureNotFound]
  | some doc => if hasRestePayer (normSp doc.norm) then [] else [msgRestePayerFacture]

/-- Section 5 (lines 367–377), the delivery-note rule. -/
def blProblems (bl : Option FoundDoc) (dateFacture dateBl : Option PyDate) :
    List (List Char) :=
  match bl with
  | none => [msgBlNotFound]
  | some _ =>
      match dateFacture, dateBl with
      | some df, some db => if df ≠ db then [mkBlMismatch db df] else []
      | _, _ => []

/-- Section 6 (lines 382–395), the honor-statement rule. -/
def ahProblems (ah : Option FoundDoc) : List (List Char) :=
  match ah with
  | none => [msgAhNotFound]
  | some doc =>
      if containsSub doc.norm ("attestation sur l honneur".data) ||
         containsSub doc.norm (deA "attestation sur l§honneur") then []
      else [msgAhIllegible]

/-- Section 7 (lines 400–425), the completion-certificate rules: the two
date comparisons are independent. -/
def aftProblems (aft : Option FoundDoc) (dateFacture dateBl : Option PyDate) :
    List (List Char) :=
  match aft with
  | none => [msgAftNotFound]
  | some doc =>
      match findAftDate doc.norm with
      | some tok =>
          (match parseDate tok, dateFacture with
           | some da, some df => if da ≠ df then [mkAftFacture tok df] else []
           | _, _ => []) ++
          (match parseDate tok, dateBl with
           | some da, some db => if da ≠ db then [mkAftBl tok db] else []
           | _, _ => [])
      | none => [msgAftNoDate]

/-! ## The verdict -/

/-- The returned dictionary `{"status": ..., "problems": ...}`. -/
structure Verdict where
  status : List Char
  problems : List (List Char)
deriving DecidableEq

/-- `"conforme"`. -/
def statusConforme : List Char := "conforme".data

/-- `"non_conforme"`. -/
def statusNonConforme : List Char := "non_conforme".data

/-- The problem list of `analyze_homelior` (lines 75–425): classification,
shared date facts, then the six sections' problems in source append order. -/
def analyzeProblems (fields : List (List Char × List Char))
    (pdfTexts : List (List Char × List Char)) : List (List Char) :=
  let devis := findDocByName pdfTexts ["devis".data]
  let cadre := findDocByName pdfTexts ["cadre".data]
  let facture := findDocByName pdfTexts ["facture".data]
  let bl := findDocByName pdfTexts ["bon".data, "livraison".data]
  let ah := classifyAh pdfTexts
  let aft := classifyAft pdfTexts
  let dateFacture := resolveDateFacture facture
  let dateBl := resolveDateBl bl
  devisProblems devis facture ah (resolveDateDevis cadre facture) ++
  cadreProblems fields cadre (resolveDateDevis cadre facture) ++
  factureProblems facture ++
  blProblems bl dateFacture dateBl ++
  ahProblems ah ++
  aftProblems aft dateFacture dateBl

/-- `analyze_homelior` (lines 75–435): the dossier contributes its `fields`
mapping, the bundle maps filenames to extracted texts; the status is
`conforme` exactly when no problem was collected (line 430). -/
def analyze_homelior (fields : List (List Char × List Char))
    (pdfTexts : List (List Char × List Char)) : Verdict :=
  let problems := analyzeProblems fields pdfTexts
  ⟨if problems.isEmpty then statusConforme else statusNonConforme, problems⟩

/-! ## Generic helpers for message discrimination -/

/-- Taking at most the length of a prefix sees only the prefix. -/
theorem take_of_prefix {A m : List Char} (h : List.IsPrefix A m) {n : Nat}
    (hn : n ≤ A.length) : m.take n = A.take n := by
  obtain ⟨t, rfl⟩ := h
  exact List.take_append_of_le_length hn

/-- Lists with different `take n` are different. -/
theorem ne_of_take_ne {m1 m2 : List Char} (n : Nat) (h : m1.take n ≠ m2.take n) :
    m1 ≠ m2 := fun e => h (congrArg (List.take n) e)

theorem take_mkPriceRange (s : List Char) (n : Nat)
    (hn : n ≤ (deA "DEVIS : P.U TTC attendu ≈ 42,315 € pour §mise en place de luminaires neufs§, trouvé ").length) :
    (mkPriceRange s).take n = (deA "DEVIS : P.U TTC attendu ≈ 42,315 € pour §mise en place de luminaires neufs§, trouvé ").take n :=
  take_of_prefix ⟨s ++ ".".data, by simp [mkPriceRange]⟩ hn

theorem take_mkDateWindow (d : PyDate) (n : Nat)
    (hn : n ≤ ("DEVIS : la date de devis ".data).length) :
    (mkDateWindow d).take n = ("DEVIS : la date de devis ".data).take n :=
  take_of_prefix ⟨fmtDate d ++ deA " n§est pas comprise entre le 01/01/2024 et le 28/02/2024.", by simp [mkDateWindow]⟩ hn

theorem take_mkPrimeMismatch (a p : List Char) (n : Nat)
    (hn : n ≤ ("CADRE : le montant de prime (".data).length) :
    (mkPrimeMismatch a p).take n = ("CADRE : le montant de prime (".data).take n :=
  take_of_prefix ⟨a ++ ") ne correspond pas à la prime CEE saisie (".data ++ p ++ ").".data,
    by simp [mkPrimeMismatch]⟩ hn

theorem take_mkPrimeUnparse (p : List Char) (n : Nat)
    (hn : n ≤ ("CADRE : la prime CEE saisie « ".data).length) :
    (mkPrimeUnparse p).take n = ("CADRE : la prime CEE saisie « ".data).take n :=
  take_of_prefix ⟨p ++ deA " » n§est pas interprétable en montant numérique.",
    by simp [mkPrimeUnparse]⟩ hn

theorem take_mkBlMismatch (db df : PyDate) (n : Nat)
    (hn : n ≤ ("BON DE LIVRAISON : la date du BL (".data).length) :
    (mkBlMismatch db df).take n = ("BON DE LIVRAISON : la date du BL (".data).take n :=
  take_of_prefix ⟨fmtDate db ++ ") est différente de la date de facture (".data ++ fmtDate df ++ ").".data,
    by simp [mkBlMismatch]⟩ hn

theorem take_mkAftFacture (tok : List Char) (df : PyDate) (n : Nat)
    (hn : n ≤ ("AFT : la date « Le ".data).length) :
    (mkAftFacture tok df).take n = ("AFT : la date « Le ".data).take n :=
  take_of_prefix ⟨tok ++ " » est différente de la date de facture (".data ++ fmtDate df ++ ").".data,
    by simp [mkAftFacture]⟩ hn

theorem take_mkAftBl (tok : List Char) (db : PyDate) (n : Nat)
    (hn : n ≤ ("AFT : la date « Le ".data).length) :
    (mkAftBl tok db).take n = ("AFT : la date « Le ".data).take n :=
  take_of_prefix ⟨tok ++ " » est différente de la date du bon de livraison (".data ++ fmtDate db ++ ").".data,
    by simp [mkAftBl]⟩ hn

/-! ## Section tags: every problem string opens with its section name -/

theorem devisProblems_tag {devis facture ah : Option FoundDoc} {dd : Option PyDate}
    {p : List Char} (hp : p ∈ devisProblems devis facture ah dd) :
    p.take 5 = "DEVIS".data := by
  cases devis with
  | none =>
      simp only [devisProblems, List.mem_singleton] at hp
      subst hp; decide
  | some doc =>
      simp only [devisProblems, List.mem_append] at hp
      rcases hp with ((((h | h) | h) | h) | h)
      all_goals repeat' split at h
      all_goals (try exact absurd h (List.not_mem_nil _))
      all_goals simp only [List.mem_singleton] at h
      all_goals subst h
      all_goals first
        | decide
        | (rw [take_mkPriceRange _ 5 (by decide)]; decide)
        | (rw [take_mkDateWindow _ 5 (by decide)]; decide)

theorem cadreProblems_tag {fields : List (List Char × List Char)}
    {cadre : Option FoundDoc} {dd : Option PyDate}
    {p : List Char} (hp : p ∈ cadreProblems fields cadre dd) :
    p.take 5 = "CADRE".data := by
  cases cadre with
  | none =>
      simp only [cadreProblems, List.mem_singleton] at hp
      subst hp; decide
  | some doc =>
      simp only [cadreProblems, List.mem_append] at hp
      rcases hp with h | h
      all_goals repeat' split at h
      all_goals (try exact absurd h (List.not_mem_nil _))
      all_goals simp only [List.mem_singleton] at h
      all_goals subst h
      all_goals first
        | decide
        | (rw [take_mkPrimeMismatch _ _ 5 (by decide)]; decide)
        | (rw [take_mkPrimeUnparse _ 5 (by decide)]; decide)

theorem factureProblems_tag {facture : Option FoundDoc}
    {p : List Char} (hp : p ∈ factureProblems facture) :
    p.take 5 = "FACTU".data := by
  cases facture with
  | none =>
      simp only [factureProblems, List.mem_singleton] at hp
      subst hp; decide
  | some doc =>
      simp only [factureProblems] at hp
      split at hp
      · exact absurd hp (List.not_mem_nil _)
      · simp only [List.mem_singleton] at hp; subst hp; decide

theorem blProblems_tag {bl : Option FoundDoc} {df db : Option PyDate}
    {p : List Char} (hp : p ∈ blProblems bl df db) :
    p.take 5 = "BON D".data := by
  cases bl with
  | none =>
      simp only [blProblems, List.mem_singleton] at hp
      subst hp; decide
  | some doc =>
      simp only [blProblems] at hp
      repeat' split at hp
      all_goals (try exact absurd hp (List.not_mem_nil _))
      all_goals simp only [List.mem_singleton] at hp
      all_goals subst hp
      all_goals first
        | decide
        | (rw [take_mkBlMismatch _ _ 5 (by decide)]; decide)

theorem ahProblems_tag {ah : Option FoundDoc}
    {p : List Char} (hp : p ∈ ahProblems ah) :
    p.take 5 = "AH : ".data := by
  cases ah with
  | none =>
      simp only [ahProblems, List.mem_singleton] at hp
      subst hp; decide
  | some doc =>
      simp only [ahProblems] at hp
      split at hp
      · exact absurd hp (List.not_mem_nil _)
      · simp only [List.mem_singleton] at hp; subst hp; decide

theorem aftProblems_tag {aft : Option FoundDoc} {df db : Option PyDate}
    {p : List Char} (hp : p ∈ aftProblems aft df db) :
    p.take 5 = "AFT :".data := by
  cases aft with
  | none =>
      simp only [aftProblems, List.mem_singleton] at hp
      subst hp; decide
  | some doc =>
      simp only [aftProblems] at hp
      split at hp
      case h_2 =>
        simp only [List.mem_singleton] at hp
        subst hp; decide
      case h_1 tok heq =>
        simp only [List.mem_append] at hp
        rcases hp with h | h
        all_goals repeat' split at h
        all_goals (try exact absurd h (List.not_mem_nil _))
        all_goals simp only [List.mem_singleton] at h
        all_goals subst h
        all_goals first
          | decide
          | (rw [take_mkAftFacture _ _ 5 (by decide)]; decide)
          | (rw [take_mkAftBl _ _ 5 (by decide)]; decide)

/-! ## Membership in the full problem list -/

/-- Membership in `analyzeProblems` decomposes over the six sections, with
the classification results and shared dates spelled out. -/
theorem mem_analyzeProblems {fields pdfTexts : List (List Char × List Char)}
    {p : List Char} :
    p ∈ analyzeProblems fields pdfTexts ↔
      (p ∈ devisProblems (findDocByName pdfTexts ["devis".data])
            (findDocByName pdfTexts ["facture".data]) (classifyAh pdfTexts)
            (resolveDateDevis (findDocByName pdfTexts ["cadre".data])
              (findDocByName pdfTexts ["facture".data])) ∨
       p ∈ cadreProblems fields (findDocByName pdfTexts ["cadre".data])
            (resolveDateDevis (findDocByName pdfTexts ["cadre".data])
              (findDocByName pdfTexts ["facture".data])) ∨
       p ∈ factureProblems (findDocByName pdfTexts ["facture".data]) ∨
       p ∈ blProblems (findDocByName pdfTexts ["bon".data, "livraison".data])
            (resolveDateFacture (findDocByName pdfTexts ["facture".data]))
            (resolveDateBl (findDocByName pdfTexts ["bon".data, "livraison".data])) ∨
       p ∈ ahProblems (classifyAh pdfTexts) ∨
       p ∈ aftProblems (classifyAft pdfTexts)
            (resolveDateFacture (findDocByName pdfTexts ["facture".data]))
            (resolveDateBl (findDocByName pdfTexts ["bon".data, "livraison".data]))) := by
  simp only [analyzeProblems, List.mem_append, or_assoc]

/-- **C1** — The verdict's status is `conforme` exactly when the problem
list is empty (`non_conforme` otherwise), for every case-field mapping and
text bundle. -/
theorem status_conforme_iff_problems_empty
    (fields pdfTexts : List (List Char × List Char)) :
    (analyze_homelior fields pdfTexts).status = statusConforme ↔
      (analyze_homelior fields pdfTexts).problems = [] := by
  show (if (analyzeProblems fields pdfTexts).isEmpty then statusConforme
        else statusNonConforme) = statusConforme ↔
       analyzeProblems fields pdfTexts = []
  cases he : (analyzeProblems fields pdfTexts).isEmpty with
  | true =>
      simpa using List.isEmpty_iff.mp he
  | false =>
      have h1 : analyzeProblems fields pdfTexts ≠ [] := by
        intro e
        rw [e] at he
        exact absurd he (by decide)
      simp only [if_neg (by decide : ¬(false = true))]
      exact iff_of_false (by decide) h1

/-- **C7** — `analyze_homelior` is a total function of the bundle and the
case fields: the embedding needed no error channel (every fallible step —
absent documents, failed regex searches, unparsable dates and amounts —
flows into a problem string through an `Option` branch), and every call
yields a complete verdict whose status is one of the two legal words. -/
theorem analyze_total_verdict (fields pdfTexts : List (List Char × List Char)) :
    ((analyze_homelior fields pdfTexts).status = statusConforme ∨
      (analyze_homelior fields pdfTexts).status = statusNonConforme) ∧
    (analyze_homelior fields pdfTexts).problems = analyzeProblems fields pdfTexts := by
  refine ⟨?_, rfl⟩
  show (if (analyzeProblems fields pdfTexts).isEmpty then statusConforme
        else statusNonConforme) = statusConforme ∨
       (if (analyzeProblems fields pdfTexts).isEmpty then statusConforme
        else statusNonConforme) = statusNonConforme
  cases (analyzeProblems fields pdfTexts).isEmpty with
  | true => exact Or.inl (by simp)
  | false => exact Or.inr (by simp)

/-! ## C6: the proposal-date mismatch branch is dead -/

/-- When the labeled proposal date on the frame parses, step 1.a of the
resolution already fixes the resolved quote date to exactly that date. -/
theorem resolveDateDevis_of_labeled {doc : FoundDoc} {facture : Option FoundDoc}
    {tok : List Char} {d : PyDate}
    (h1 : findPropDate doc.norm = some tok) (h2 : parseDate tok = some d) :
    resolveDateDevis (some doc) facture = some d := by
  unfold resolveDateDevis
  simp only [h1, h2]

/-- The contribution-frame section can never produce the proposal-date
mismatch message when its date argument is the resolved quote date computed
from the same frame document. -/
theorem cadreProblems_no_mismatch {fields : List (List Char × List Char)}
    {cadre facture : Option FoundDoc} :
    msgPropDateMismatch ∉ cadreProblems fields cadre (resolveDateDevis cadre facture) := by
  intro h
  cases cadre with
  | none =>
      simp only [cadreProblems, List.mem_singleton] at h
      exact absurd h (by decide)
  | some doc =>
      simp only [cadreProblems, List.mem_append] at h
      rcases h with h | h
      · repeat' split at h
        all_goals (try exact absurd h (List.not_mem_nil _))
        all_goals simp only [List.mem_singleton] at h
        all_goals first
          | exact absurd h (by decide)
          | (have h2 := congrArg (List.take 12) h
             rw [take_mkPrimeMismatch _ _ 12 (by decide)] at h2
             exact absurd h2 (by decide))
          | (have h2 := congrArg (List.take 12) h
             rw [take_mkPrimeUnparse _ 12 (by decide)] at h2
             exact absurd h2 (by decide))
      · split at h
        case h_2 =>
          simp only [List.mem_singleton] at h
          exact absurd h (by decide)
        case h_1 tok heq =>
          split at h
          case h_2 => exact absurd h (List.not_mem_nil _)
          case h_1 dd heq2 =>
            split at h
            case h_2 => exact absurd h (List.not_mem_nil _)
            case h_1 dp heq3 =>
              split at h
              case isFalse => exact absurd h (List.not_mem_nil _)
              case isTrue hne =>
                have hres := @resolveDateDevis_of_labeled doc facture tok dp heq heq3
                rw [heq2] at hres
                exact hne (Option.some_injective _ hres).symm

/-- **C6** — The problem `CADRE : la « Date de cette proposition » ne
correspond pas à la date de devis.` is never emitted, for any bundle and
case fields: when the labeled proposal date on the frame parses, quote-date
resolution has already chosen it, so the mismatch branch cannot fire. -/
theorem prop_date_mismatch_unreachable (fields pdfTexts : List (List Char × List Char)) :
    msgPropDateMismatch ∉ (analyze_homelior fields pdfTexts).problems := by
  intro h
  have h' : msgPropDateMismatch ∈ analyzeProblems fields pdfTexts := h
  rw [mem_analyzeProblems] at h'
  rcases h' with h' | h' | h' | h' | h' | h'
  · exact absurd (devisProblems_tag h') (by decide)
  · exact absurd h' cadreProblems_no_mismatch
  · exact absurd (factureProblems_tag h') (by decide)
  · exact absurd (blProblems_tag h') (by decide)
  · exact absurd (ahProblems_tag h') (by decide)
  · exact absurd (aftProblems_tag h') (by decide)

/-! ## C4: the quote-date fallback chain -/

/-- `a <|> b` on optional dates, written out. -/
def orElseD (a b : Option PyDate) : Option PyDate :=
  match a with
  | some d => some d
  | none => b

/-- Chain step (1), following the spec: the labeled proposal date on the
contribution-frame document. -/
def stepFrameLabel : Option FoundDoc → Option PyDate
  | some doc =>
      match findPropDate doc.norm with
      | some tok => parseDate tok
      | none => none
  | none => none

/-- Chain step (2), following the spec: the `devis … dd/mm/yyyy`
cross-reference on the invoice. -/
def stepInvoiceRef : Option FoundDoc → Option PyDate
  | some doc =>
      match findDevisRef doc.norm with
      | some tok => parseDate tok
      | none => none
  | none => none

/-- Chain step (3), following the spec: the first bare date in the
contribution-frame text. -/
def stepFrameBare : Option FoundDoc → Option PyDate
  | some doc =>
      match findDateAny doc.norm with
      | some s => parseDate s
      | none => none
  | none => none

/-- Chain step (4), following the spec: the first bare date in the invoice
text. -/
def stepInvoiceBare : Option FoundDoc → Option PyDate
  | some doc =>
      match findDateAny doc.norm with
      | some s => parseDate s
      | none => none
  | none => none

/-- The quote-date resolution chain exactly as the spec words it: four
steps, first success wins, later steps not attempted. -/
def quoteDateChainSpec (cadre facture : Option FoundDoc) : Option PyDate :=
  orElseD (stepFrameLabel cadre)
    (orElseD (stepInvoiceRef facture)
      (orElseD (stepFrameBare cadre) (stepInvoiceBare facture)))

/-- The candidate-text loop of 1.c equals steps (3)–(4) of the chain. -/
theorem firstParsedDate_eq_bare (cadre facture : Option FoundDoc) :
    firstParsedDate
        ((match cadre with | some doc => [doc.norm] | none => []) ++
         (match facture with | some doc => [doc.norm] | none => [])) =
      orElseD (stepFrameBare cadre) (stepInvoiceBare facture) := by
  cases cadre <;> cases facture <;>
    simp only [stepFrameBare, stepInvoiceBare, orElseD, firstParsedDate,
      List.nil_append, List.cons_append, List.append_nil] <;>
    repeat' split
  all_goals simp_all [firstParsedDate]

/-- The code's quote-date resolution is the spec's four-step chain. -/
theorem resolveDateDevis_eq_chain (cadre facture : Option FoundDoc) :
    resolveDateDevis cadre facture = quoteDateChainSpec cadre facture := by
  have hbare := firstParsedDate_eq_bare cadre facture
  simp only [resolveDateDevis, quoteDateChainSpec]
  rw [hbare]
  cases cadre <;> cases facture <;>
    simp only [stepFrameLabel, stepInvoiceRef, stepFrameBare, stepInvoiceBare, orElseD] <;>
    repeat' split
  all_goals simp_all

/-- **C4** — The resolved quote date is computed by the four-step fallback
chain (frame label, invoice cross-reference, frame bare date, invoice bare
date; first success wins), and in particular a parsing labeled proposal date
D1 on the frame beats a different cross-referenced quote date D2 on the
invoice. -/
theorem quote_date_fallback_chain :
    (∀ cadre facture : Option FoundDoc,
        resolveDateDevis cadre facture = quoteDateChainSpec cadre facture) ∧
    (∀ (doc fdoc : FoundDoc) (tok tok2 : List Char) (d1 d2 : PyDate),
        findPropDate doc.norm = some tok → parseDate tok = some d1 →
        findDevisRef fdoc.norm = some tok2 → parseDate tok2 = some d2 →
        d1 ≠ d2 →
        resolveDateDevis (some doc) (some fdoc) = some d1) :=
  ⟨resolveDateDevis_eq_chain,
   fun doc fdoc tok _ d1 _ h1 h2 _ _ _ =>
     @resolveDateDevis_of_labeled doc (some fdoc) tok d1 h1 h2⟩

/-- A frame document carrying a labeled proposal date 15/01/2024. -/
def c4cadre : FoundDoc :=
  ⟨"cadre.pdf".data, "date de cette proposition : 15/01/2024".data,
   pyNormalize ("date de cette proposition : 15/01/2024".data)⟩

/-- An invoice document cross-referencing a quote dated 20/01/2024. -/
def c4facture : FoundDoc :=
  ⟨"facture.pdf".data, "devis du 20/01/2024".data,
   pyNormalize ("devis du 20/01/2024".data)⟩

/-- Witness for C4: at the concrete frame/invoice pair the hypotheses hold
and the frame label wins. -/
theorem quote_date_fallback_chain_witness :
    findPropDate c4cadre.norm = some ("15/01/2024".data) ∧
    parseDate ("15/01/2024".data) = some ⟨2024, 1, 15⟩ ∧
    findDevisRef c4facture.norm = some ("20/01/2024".data) ∧
    parseDate ("20/01/2024".data) = some ⟨2024, 1, 20⟩ ∧
    (⟨2024, 1, 15⟩ : PyDate) ≠ ⟨2024, 1, 20⟩ ∧
    resolveDateDevis (some c4cadre) (some c4facture) = some ⟨2024, 1, 15⟩ :=
  ⟨by decide, by decide, by decide, by decide, by decide,
   quote_date_fallback_chain.2 c4cadre c4facture ("15/01/2024".data)
     ("20/01/2024".data) ⟨2024, 1, 15⟩ ⟨2024, 1, 20⟩
     (by decide) (by decide) (by decide) (by decide) (by decide)⟩

/-! ## C5: keyword overlap between the AH and AFT roles -/

/-- Counterexample to C5: the single filename `attest_aft.pdf` contains both
`attest` and `aft`, the AFT role binds to it, but the AH role binds to
nothing — its keywords are `ah`, with fallback `attestation`+`honneur`, and
the name contains none of these. -/
theorem keyword_overlap_counterexample :
    containsSub (lowerL ("attest_aft.pdf".data)) ("attest".data) = true ∧
    containsSub (lowerL ("attest_aft.pdf".data)) ("aft".data) = true ∧
    classifyAft [("attest_aft.pdf".data, ([] : List Char))] =
      some ⟨"attest_aft.pdf".data, [], pyNormalize []⟩ ∧
    classifyAh [("attest_aft.pdf".data, ([] : List Char))] = none := by
  refine ⟨by decide, by decide, by decide, by decide⟩

/-- **C5 (amended)** — A single filename containing both `ah` and `aft`
classifies into both the honor-statement and the completion-certificate
roles simultaneously (the substring `attest` alone does not trigger the AH
keywords). -/
theorem keyword_overlap_amended (name content : List Char)
    (h1 : containsSub (lowerL name) ("ah".data) = true)
    (h2 : containsSub (lowerL name) ("aft".data) = true) :
    classifyAh [(name, content)] = some ⟨name, content, pyNormalize content⟩ ∧
    classifyAft [(name, content)] = some ⟨name, content, pyNormalize content⟩ := by
  constructor <;> simp [classifyAh, classifyAft, orDoc, findDocByName, h1, h2]

/-- Witness for the amended C5 at the filename `ah_aft.pdf`. -/
theorem keyword_overlap_amended_witness :
    (containsSub (lowerL ("ah_aft.pdf".data)) ("ah".data) = true ∧
     containsSub (lowerL ("ah_aft.pdf".data)) ("aft".data) = true) ∧
    (classifyAh [("ah_aft.pdf".data, ([] : List Char))] =
        some ⟨"ah_aft.pdf".data, [], pyNormalize []⟩ ∧
     classifyAft [("ah_aft.pdf".data, ([] : List Char))] =
        some ⟨"ah_aft.pdf".data, [], pyNormalize []⟩) :=
  ⟨⟨by decide, by decide⟩,
   keyword_overlap_amended ("ah_aft.pdf".data) [] (by decide) (by decide)⟩

/-! ## C3: the end-to-end boundary scenario -/

/-- Case fields of scenario C: declared subsidy `2538,90`. -/
def c3fields : List (List Char × List Char) := [("Prime CEE".data, "2538,90".data)]

/-- Bundle of scenario C: `cadre.pdf` whose text contains
`une prime d un montant de 2538.91 euros`. -/
def c3texts : List (List Char × List Char) :=
  [("cadre.pdf".data, "une prime d un montant de 2538.91 euros".data)]

/-- Counterexample to C3: at scenario C the frame amount `2538.91` and the
declared `2538,90` differ by the double ≈ 0.0099999999997635, which does not
exceed the double `0.01`, so no amount-mismatch problem is produced — the
problem list consists exactly of the six absence problems of the other
checks. -/
theorem amount_mismatch_scenario_counterexample :
    mkPrimeMismatch ("2538.91".data) ("2538,90".data) ∉
      (analyze_homelior c3fields c3texts).problems ∧
    (analyze_homelior c3fields c3texts).problems =
      [msgDevisNotFound, msgPropLabelNotFound, msgFactureNotFound,
       msgBlNotFound, msgAhNotFound, msgAftNotFound] := by
  refine ⟨by decide, by decide⟩

/-- **C3 (amended)** — At scenario C the returned problem list contains no
amount-mismatch problem for the contribution frame at all: the computed
difference stays within the tolerance. -/
theorem amount_mismatch_scenario_amended (a p : List Char) :
    mkPrimeMismatch a p ∉ (analyze_homelior c3fields c3texts).problems := by
  intro h
  have he : (analyze_homelior c3fields c3texts).problems =
      [msgDevisNotFound, msgPropLabelNotFound, msgFactureNotFound,
       msgBlNotFound, msgAhNotFound, msgAftNotFound] := by decide
  rw [he] at h
  simp only [List.mem_cons, List.not_mem_nil, or_false] at h
  rcases h with h | h | h | h | h | h
  all_goals
    (have h2 := congrArg (List.take 12) h
     rw [take_mkPrimeMismatch _ _ 12 (by decide)] at h2
     exact absurd h2 (by decide))

/-! ## C10: the unit-price check is guarded by the line-item phrase -/

/-- When the quote's normalized text lacks the line-item phrase, the quote
section emits no unit-price problem of any of the three kinds. -/
theorem devisProblems_price_skipped (facture ah : Option FoundDoc)
    (dd : Option PyDate) (doc : FoundDoc)
    (hno : containsSub doc.norm phraseLum = false) :
    msgPriceUnparse ∉ devisProblems (some doc) facture ah dd ∧
    msgPriceNotFound ∉ devisProblems (some doc) facture ah dd ∧
    ∀ s, mkPriceRange s ∉ devisProblems (some doc) facture ah dd := by
  refine ⟨?_, ?_, fun s => ?_⟩ <;> intro hmem <;>
  · simp only [devisProblems, hno, Bool.false_eq_true, if_false,
      List.mem_append, List.not_mem_nil, or_false] at hmem
    rcases hmem with ((hmem | hmem) | hmem) | hmem
    all_goals repeat' split at hmem
    all_goals (try exact absurd hmem (List.not_mem_nil _))
    all_goals simp only [List.mem_singleton] at hmem
    all_goals first
      | exact absurd hmem (by decide)
      | (have h2 := congrArg (List.take 9) hmem
         rw [take_mkDateWindow _ 9 (by decide)] at h2
         exact absurd h2 (by decide))
      | (have h2 := congrArg (List.take 9) hmem
         rw [take_mkPriceRange _ 9 (by decide)] at h2
         exact absurd h2 (by decide))
      | (have h2 := congrArg (List.take 9) hmem
         rw [take_mkPriceRange _ 9 (by decide), take_mkDateWindow _ 9 (by decide)] at h2
         exact absurd h2 (by decide))

/-- **C10** — If a quote document is classified but its normalized text does
not contain `mise en place de luminaires neufs`, no unit-price problem
(found-but-out-of-range, unparsable, or not-found) appears in the verdict. -/
theorem unit_price_check_skipped (fields pdfTexts : List (List Char × List Char))
    (doc : FoundDoc)
    (h1 : findDocByName pdfTexts ["devis".data] = some doc)
    (h2 : containsSub doc.norm phraseLum = false) :
    msgPriceUnparse ∉ (analyze_homelior fields pdfTexts).problems ∧
    msgPriceNotFound ∉ (analyze_homelior fields pdfTexts).problems ∧
    ∀ s, mkPriceRange s ∉ (analyze_homelior fields pdfTexts).problems := by
  have hsec := devisProblems_price_skipped
    (findDocByName pdfTexts ["facture".data]) (classifyAh pdfTexts)
    (resolveDateDevis (findDocByName pdfTexts ["cadre".data])
      (findDocByName pdfTexts ["facture".data])) doc h2
  refine ⟨?_, ?_, fun s => ?_⟩ <;> intro hmem <;>
  · have h' : _ ∈ analyzeProblems fields pdfTexts := hmem
    rw [mem_analyzeProblems] at h'
    rw [h1] at h'
    rcases h' with h' | h' | h' | h' | h' | h'
    · first
        | exact absurd h' ((hsec.1))
        | exact absurd h' ((hsec.2.1))
        | exact absurd h' ((hsec.2.2 s))
    all_goals
      have htag := (by first
        | exact cadreProblems_tag h'
        | exact factureProblems_tag h'
        | exact blProblems_tag h'
        | exact ahProblems_tag h'
        | exact aftProblems_tag h' : List.take 5 _ = _)
    all_goals first
      | exact absurd htag (by decide)
      | (rw [take_mkPriceRange _ 5 (by decide)] at htag
         exact absurd htag (by decide))

/-- Witness for C10: a bundle whose quote text is `hello`. -/
theorem unit_price_check_skipped_witness :
    (findDocByName [("devis.pdf".data, "hello".data)] ["devis".data] =
        some ⟨"devis.pdf".data, "hello".data, pyNormalize ("hello".data)⟩ ∧
     containsSub (FoundDoc.norm ⟨"devis.pdf".data, "hello".data, pyNormalize ("hello".data)⟩)
        phraseLum = false) ∧
    (msgPriceUnparse ∉
        (analyze_homelior [] [("devis.pdf".data, "hello".data)]).problems ∧
     msgPriceNotFound ∉
        (analyze_homelior [] [("devis.pdf".data, "hello".data)]).problems ∧
     ∀ s, mkPriceRange s ∉
        (analyze_homelior [] [("devis.pdf".data, "hello".data)]).problems) :=
  ⟨⟨by decide, by decide⟩,
   unit_price_check_skipped [] [("devis.pdf".data, "hello".data)]
     ⟨"devis.pdf".data, "hello".data, pyNormalize ("hello".data)⟩
     (by decide) (by decide)⟩

/-! ## C9: the amount parse-failure branches are dead.

The capture of the amount pattern is a digit, digits/whitespace, a
separator, two digits; inside a normalized text the whitespace can only be
a plain space, so the cleaned capture is always a parsable decimal. -/

/-- A digit character is one of the ten ASCII digits. -/
theorem isDigitC_cases {c : Char} (h : isDigitC c = true) :
    c = '0' ∨ c = '1' ∨ c = '2' ∨ c = '3' ∨ c = '4' ∨
    c = '5' ∨ c = '6' ∨ c = '7' ∨ c = '8' ∨ c = '9' := by
  simpa [isDigitC, Bool.or_eq_true, decide_eq_true_eq, or_assoc] using h

/-- The facts about digit characters the parse-success argument needs. -/
theorem isDigitC_facts {c : Char} (h : isDigitC c = true) :
    pyLowerC c = c ∧ isPySpace c = false ∧ c ≠ '+' ∧ c ≠ '-' ∧ c ≠ '.' ∧
    c ≠ ',' ∧ c ≠ ' ' ∧ c ≠ nbsp ∧ c ≠ 'i' ∧ c ≠ 'n' := by
  rcases isDigitC_cases h with rfl | rfl | rfl | rfl | rfl | rfl | rfl | rfl | rfl | rfl <;>
    exact ⟨by decide, by decide, by decide, by decide, by decide, by decide,
           by decide, by decide, by decide, by decide⟩

/-- Whitespace characters surviving collapsing are plain spaces. -/
theorem mem_collapseAux_space :
    ∀ (xs : List Char) (b : Bool) {c : Char}, c ∈ collapseAux b xs →
      isPySpace c = true → c = ' '
  | [], _, _, hm, _ => by simp [collapseAux] at hm
  | d :: t, b, c, hm, hsp => by
      cases b <;> simp only [collapseAux] at hm <;> split at hm
      · rcases List.mem_cons.mp hm with rfl | hm'
        · rfl
        · exact mem_collapseAux_space t true hm' hsp
      · rcases List.mem_cons.mp hm with rfl | hm'
        · simp_all
        · exact mem_collapseAux_space t false hm' hsp
      · exact mem_collapseAux_space t true hm hsp
      · rcases List.mem_cons.mp hm with rfl | hm'
        · simp_all
        · exact mem_collapseAux_space t false hm' hsp

/-- Stripping keeps only characters of the original list. -/
theorem pyStrip_subset {xs : List Char} {c : Char} (h : c ∈ pyStrip xs) : c ∈ xs := by
  unfold pyStrip at h
  rw [List.mem_reverse] at h
  have h2 := (List.dropWhile_sublist _).subset h
  rw [List.mem_reverse] at h2
  exact (List.dropWhile_sublist _).subset h2

/-- Whitespace characters of a normalized text are plain spaces. -/
theorem pyNormalize_space {s : List Char} {c : Char} (hm : c ∈ pyNormalize s)
    (hsp : isPySpace c = true) : c = ' ' :=
  mem_collapseAux_space _ false (pyStrip_subset hm) hsp

/-- The remainder from a successful literal match sits inside the text. -/
theorem stripPrefixL_subset :
    ∀ {lbl xs r : List Char}, stripPrefixL lbl xs = some r → ∀ c ∈ r, c ∈ xs
  | [], _, _, h, c, hc => by
      simp only [stripPrefixL, Option.some_inj] at h
      exact h ▸ hc
  | _ :: _, [], _, h, _, _ => by simp [stripPrefixL] at h
  | a :: as, b :: bs, r, h, c, hc => by
      simp only [stripPrefixL] at h
      split at h
      · exact List.mem_cons_of_mem _ (stripPrefixL_subset h c hc)
      · exact absurd h (by simp)

/-- A successful scan is a successful continuation on a sub-text. -/
theorem scanFirst_elim {α : Type} {lbl : List Char} {k : List Char → Option α} :
    ∀ {t : List Char} {v : α}, scanFirst lbl k t = some v →
      ∃ r, (∀ c ∈ r, c ∈ t) ∧ k r = some v := by
  intro t
  induction t with
  | nil => intro v h; simp [scanFirst] at h
  | cons c t ih =>
      intro v h
      simp only [scanFirst] at h
      split at h
      case h_1 r hr =>
        split at h
        case h_1 v' hv =>
          obtain rfl : v' = v := by simpa using h
          exact ⟨r, stripPrefixL_subset hr, hv⟩
        case h_2 =>
          obtain ⟨r', hsub, hk⟩ := ih h
          exact ⟨r', fun x hx => List.mem_cons_of_mem _ (hsub x hx), hk⟩
      case h_2 =>
        obtain ⟨r', hsub, hk⟩ := ih h
        exact ⟨r', fun x hx => List.mem_cons_of_mem _ (hsub x hx), hk⟩

/-- A successful lazy amount search is an anchored amount match on a
sub-text. -/
theorem scanAmountNoNl_elim :
    ∀ {r cap : List Char}, scanAmountNoNl r = some cap →
      ∃ r', (∀ c ∈ r', c ∈ r) ∧ matchAmount r' = some cap := by
  intro r
  induction r with
  | nil => intro cap h; simp [scanAmountNoNl] at h
  | cons c t ih =>
      intro cap h
      simp only [scanAmountNoNl] at h
      split at h
      case h_1 cap' hm =>
        obtain rfl : cap' = cap := by simpa using h
        exact ⟨c :: t, fun x hx => hx, hm⟩
      case h_2 =>
        split at h
        · simp at h
        · obtain ⟨r', hsub, hk⟩ := ih h
          exact ⟨r', fun x hx => List.mem_cons_of_mem _ (hsub x hx), hk⟩

/-- A successful `\s+`-then-amount tail is an anchored amount match on a
sub-text. -/
theorem primeAfter_elim {r cap : List Char} (h : primeAfter r = some cap) :
    ∃ r', (∀ c ∈ r', c ∈ r) ∧ matchAmount r' = some cap := by
  simp only [primeAfter] at h
  split at h
  · simp at h
  · exact ⟨_, fun x hx => List.drop_subset _ _ hx, h⟩

/-- Shape of a successful anchored amount match: digit, digit/whitespace
run, separator, two digits — drawn from the scanned text. -/
theorem matchAmount_shape {xs cap : List Char} (h : matchAmount xs = some cap) :
    ∃ c run s a b, cap = c :: (run ++ [s, a, b]) ∧ isDigitC c = true ∧
      (∀ x ∈ run, isDigitC x = true ∨ isPySpace x = true) ∧
      (s = '.' ∨ s = ',') ∧ isDigitC a = true ∧ isDigitC b = true ∧
      (∀ x ∈ cap, x ∈ xs) := by
  match xs, h with
  | c :: rest, h => ?_
  simp only [matchAmount] at h
  split at h
  case isFalse => simp at h
  case isTrue hc =>
    split at h
    case h_2 => simp at h
    case h_1 s a b tail heq =>
      split at h
      case isFalse => simp at h
      case isTrue hcond =>
        obtain rfl : c :: (List.takeWhile (fun x => isDigitC x || isPySpace x) rest ++ [s, a, b]) = cap := by
          simpa using h
        simp only [Bool.and_eq_true, Bool.or_eq_true, decide_eq_true_eq] at hcond
        refine ⟨c, _, s, a, b, rfl, hc, ?_, hcond.1.1, hcond.1.2, hcond.2, ?_⟩
        · intro x hx
          have := List.mem_takeWhile_imp hx
          simpa using this
        · intro x hx
          rcases List.mem_cons.mp hx with rfl | hx'
          · exact List.mem_cons_self _ _
          · rcases List.mem_append.mp hx' with hx2 | hx2
            · exact List.mem_cons_of_mem _ ((List.takeWhile_prefix _).subset hx2)
            · have hx3 : x ∈ s :: a :: b :: tail := by
                rcases List.mem_cons.mp hx2 with rfl | hx3
                · exact List.mem_cons_self _ _
                · rcases List.mem_cons.mp hx3 with rfl | hx4
                  · exact List.mem_cons_of_mem _ (List.mem_cons_self _ _)
                  · rcases List.mem_cons.mp hx4 with rfl | hx5
                    · exact List.mem_cons_of_mem _
                        (List.mem_cons_of_mem _ (List.mem_cons_self _ _))
                    · exact absurd hx5 (List.not_mem_nil _)
              have hsub : x ∈ List.drop (List.takeWhile (fun x => isDigitC x || isPySpace x) rest).length rest := by
                rw [heq]
                exact hx3
              exact List.mem_cons_of_mem _ (List.drop_subset _ _ hsub)

/-- `takeWhile` runs through a satisfying prefix and stops at a failing
character. -/
theorem takeWhile_append_stop {p : Char → Bool} :
    ∀ {ds : List Char} {x : Char} {t : List Char}, (∀ c ∈ ds, p c = true) →
      p x = false → (ds ++ x :: t).takeWhile p = ds
  | [], x, t, _, hx => by simp [List.takeWhile_cons, hx]
  | d :: ds, x, t, h, hx => by
      have hd : p d = true := h d (List.mem_cons_self _ _)
      simp only [List.cons_append, List.takeWhile_cons, hd]
      exact congrArg (d :: ·) (takeWhile_append_stop (fun c hc => h c (List.mem_cons_of_mem _ hc)) hx)

/-- `takeWhile` keeps an all-satisfying list whole. -/
theorem takeWhile_all {p : Char → Bool} :
    ∀ {l : List Char}, (∀ c ∈ l, p c = true) → l.takeWhile p = l
  | [], _ => rfl
  | d :: l, h => by
      simp only [List.takeWhile_cons, h d (List.mem_cons_self _ _)]
      exact congrArg (d :: ·) (takeWhile_all (fun c hc => h c (List.mem_cons_of_mem _ hc)))

/-- Stripping a whitespace-free list is the identity. -/
theorem pyStrip_of_noSpace {xs : List Char} (h : ∀ c ∈ xs, isPySpace c = false) :
    pyStrip xs = xs := by
  have drop_id : ∀ (l : List Char), (∀ c ∈ l, isPySpace c = false) →
      l.dropWhile isPySpace = l := by
    intro l hl
    cases l with
    | nil => rfl
    | cons d t =>
        exact List.dropWhile_cons_of_neg (by simp [hl d (List.mem_cons_self _ _)])
  unfold pyStrip
  rw [drop_id _ h, drop_id _ (fun c hc => h c (List.mem_reverse.mp hc)), List.reverse_reverse]

/-- A nonempty all-digit integer part with an all-digit fraction always
parses as a float. -/
theorem pyFloat_digits_dot {ds fs : List Char} (hne : ds ≠ [])
    (h1 : ∀ c ∈ ds, isDigitC c = true) (h2 : ∀ c ∈ fs, isDigitC c = true) :
    ∃ v, pyFloat (ds ++ '.' :: fs) = some v := by
  have hnosp : ∀ c ∈ ds ++ '.' :: fs, isPySpace c = false := by
    intro c hc
    rcases List.mem_append.mp hc with hc' | hc'
    · exact (isDigitC_facts (h1 c hc')).2.1
    · rcases List.mem_cons.mp hc' with rfl | hc''
      · decide
      · exact (isDigitC_facts (h2 c hc'')).2.1
  obtain ⟨d, ds₂, rfl⟩ : ∃ d ds₂, ds = d :: ds₂ := by
    cases ds with
    | nil => exact absurd rfl hne
    | cons d t => exact ⟨d, t, rfl⟩
  have hd := isDigitC_facts (h1 d (List.mem_cons_self _ _))
  have hmag : ∃ v, pyFloatMag (d :: ds₂ ++ '.' :: fs) false = some v := by
    have hip : (d :: ds₂ ++ '.' :: fs).takeWhile isDigitC = d :: ds₂ := by
      rw [show d :: ds₂ ++ '.' :: fs = (d :: ds₂) ++ '.' :: fs from rfl]
      exact takeWhile_append_stop h1 (by decide)
    have hdrop : (d :: ds₂ ++ '.' :: fs).drop (d :: ds₂).length = '.' :: fs :=
      List.drop_left _ _
    have hfp : fs.takeWhile isDigitC = fs := takeWhile_all h2
    have hfdrop : fs.drop fs.length = [] := List.drop_length fs
    have hinf : ¬(lowerL (d :: ds₂ ++ '.' :: fs) = "inf".data ∨
        lowerL (d :: ds₂ ++ '.' :: fs) = "infinity".data) := by
      rintro (he | he) <;>
      · have hh := congrArg (fun l => l.headD ' ') he
        simp only [lowerL, List.cons_append, List.map_cons, List.headD_cons] at hh
        rw [hd.1] at hh
        exact hd.2.2.2.2.2.2.2.2.1 (by simpa using hh)
    have hnan : ¬(lowerL (d :: ds₂ ++ '.' :: fs) = "nan".data) := by
      intro he
      have hh := congrArg (fun l => l.headD ' ') he
      simp only [lowerL, List.cons_append, List.map_cons, List.headD_cons] at hh
      rw [hd.1] at hh
      exact hd.2.2.2.2.2.2.2.2.2 (by simpa using hh)
    unfold pyFloatMag
    rw [if_neg (by simpa using hinf), if_neg (by simpa using hnan)]
    simp only [hip, hdrop, hfp, hfdrop]
    rw [if_neg (by simp)]
    exact ⟨_, rfl⟩
  obtain ⟨v, hv⟩ := hmag
  refine ⟨v, ?_⟩
  unfold pyFloat
  rw [pyStrip_of_noSpace hnosp]
  split
  case h_1 r heq =>
    exact absurd (List.head_eq_of_cons_eq heq.symm).symm hd.2.2.1
  case h_2 r heq =>
    exact absurd (List.head_eq_of_cons_eq heq.symm).symm hd.2.2.2.1
  case h_3 r hne1 hne2 =>
    exact hv

/-- Comma-to-dot mapping fixes an all-digit list. -/
theorem map_commaDot_id {l : List Char} (h : ∀ x ∈ l, isDigitC x = true) :
    l.map (fun c => if c = ',' then '.' else c) = l := by
  induction l with
  | nil => rfl
  | cons x t ih =>
      have hx := (isDigitC_facts (h x (List.mem_cons_self _ _))).2.2.2.2.2.1
      simp only [List.map_cons, if_neg hx]
      exact congrArg (x :: ·) (ih (fun y hy => h y (List.mem_cons_of_mem _ hy)))

/-- The quote-side cleaner on a shaped capture yields digits, a dot and two
digits. -/
theorem cleanPrice_eq {c : Char} {run : List Char} {s a b : Char}
    (hc : isDigitC c = true) (hrun : ∀ x ∈ run, isDigitC x = true ∨ x = ' ')
    (hs : s = '.' ∨ s = ',') (ha : isDigitC a = true) (hb : isDigitC b = true) :
    cleanPrice (c :: (run ++ [s, a, b])) =
      (c :: run.filter (fun x => x ≠ ' ')) ++ '.' :: [a, b] := by
  have hfc := isDigitC_facts hc
  have hfa := isDigitC_facts ha
  have hfb := isDigitC_facts hb
  have hruns : ∀ x ∈ run.filter (fun x => x ≠ ' '), isDigitC x = true := by
    intro x hx
    obtain ⟨hmem, hne⟩ := List.mem_filter.mp hx
    rcases hrun x hmem with hd | hsp
    · exact hd
    · simp [hsp] at hne
  rcases hs with rfl | rfl <;>
  · simp [cleanPrice, List.filter_append,
      hfc.2.2.2.2.2.1, hfc.2.2.2.2.2.2.1, hfa.2.2.2.2.2.1, hfa.2.2.2.2.2.2.1,
      hfb.2.2.2.2.2.1, hfb.2.2.2.2.2.2.1]
    exact map_commaDot_id (fun x hx => by
      obtain ⟨hmem, hne⟩ := List.mem_filter.mp hx
      rcases hrun x hmem with hd | rfl
      · exact hd
      · simp at hne)

/-- The frame-side cleaner on a shaped capture yields digits, a dot and two
digits. -/
theorem cleanPrime_eq {c : Char} {run : List Char} {s a b : Char}
    (hc : isDigitC c = true) (hrun : ∀ x ∈ run, isDigitC x = true ∨ x = ' ')
    (hs : s = '.' ∨ s = ',') (ha : isDigitC a = true) (hb : isDigitC b = true) :
    cleanPrime (c :: (run ++ [s, a, b])) =
      (c :: run.filter (fun x => x ≠ ' ' && x ≠ nbsp)) ++ '.' :: [a, b] := by
  have hfc := isDigitC_facts hc
  have hfa := isDigitC_facts ha
  have hfb := isDigitC_facts hb
  have hruns : ∀ x ∈ run.filter (fun x => x ≠ ' ' && x ≠ nbsp), isDigitC x = true := by
    intro x hx
    obtain ⟨hmem, hne⟩ := List.mem_filter.mp hx
    rcases hrun x hmem with hd | hsp
    · exact hd
    · simp [hsp] at hne
  rcases hs with rfl | rfl <;>
  · simp [cleanPrime, List.filter_append,
      (show ('.' : Char) ≠ nbsp by decide), (show (',' : Char) ≠ nbsp by decide),
      hfc.2.2.2.2.2.1, hfc.2.2.2.2.2.2.1, hfc.2.2.2.2.2.2.2.1,
      hfa.2.2.2.2.2.1, hfa.2.2.2.2.2.2.1, hfa.2.2.2.2.2.2.2.1,
      hfb.2.2.2.2.2.1, hfb.2.2.2.2.2.2.1, hfb.2.2.2.2.2.2.2.1]
    exact map_commaDot_id (fun x hx => by
      obtain ⟨hmem, hne⟩ := List.mem_filter.mp hx
      rcases hrun x hmem with hd | rfl
      · exact hd
      · simp at hne)

/-- On a normalized text, a captured quote-side price always parses. -/
theorem price_parse_ok {t cap : List Char}
    (hcap : findPriceAfter (pyNormalize t) = some cap) :
    ∃ v, pyFloat (cleanPrice cap) = some v := by
  obtain ⟨r, hr, hscan⟩ := scanFirst_elim hcap
  obtain ⟨r', hr', hmatch⟩ := scanAmountNoNl_elim hscan
  obtain ⟨c, run, s, a, b, rfl, hc, hrun, hs, ha, hb, hsub⟩ := matchAmount_shape hmatch
  have hrun' : ∀ x ∈ run, isDigitC x = true ∨ x = ' ' := by
    intro x hx
    rcases hrun x hx with hd | hsp
    · exact Or.inl hd
    · exact Or.inr (pyNormalize_space (hr _ (hr' _ (hsub x (by simp [hx])))) hsp)
  rw [cleanPrice_eq hc hrun' hs ha hb]
  refine pyFloat_digits_dot (by simp) ?_ ?_
  · intro x hx
    rcases List.mem_cons.mp hx with rfl | hx'
    · exact hc
    · obtain ⟨hmem, hne⟩ := List.mem_filter.mp hx'
      rcases hrun' x hmem with hd | hsp
      · exact hd
      · simp [hsp] at hne
  · intro x hx
    rcases List.mem_cons.mp hx with rfl | hx'
    · exact ha
    · rcases List.mem_cons.mp hx' with rfl | hx''
      · exact hb
      · exact absurd hx'' (List.not_mem_nil _)

/-- On a normalized text, a captured frame-side subsidy amount always
parses. -/
theorem prime_parse_ok {t cap : List Char}
    (hcap : findPrimeAmount (pyNormalize t) = some cap) :
    ∃ v, pyFloat (cleanPrime cap) = some v := by
  obtain ⟨r, hr, hscan⟩ := scanFirst_elim hcap
  obtain ⟨r', hr', hmatch⟩ := primeAfter_elim hscan
  obtain ⟨c, run, s, a, b, rfl, hc, hrun, hs, ha, hb, hsub⟩ := matchAmount_shape hmatch
  have hrun' : ∀ x ∈ run, isDigitC x = true ∨ x = ' ' := by
    intro x hx
    rcases hrun x hx with hd | hsp
    · exact Or.inl hd
    · exact Or.inr (pyNormalize_space (hr _ (hr' _ (hsub x (by simp [hx])))) hsp)
  rw [cleanPrime_eq hc hrun' hs ha hb]
  refine pyFloat_digits_dot (by simp) ?_ ?_
  · intro x hx
    rcases List.mem_cons.mp hx with rfl | hx'
    · exact hc
    · obtain ⟨hmem, hne⟩ := List.mem_filter.mp hx'
      rcases hrun' x hmem with hd | hsp
      · exact hd
      · simp [hsp] at hne
  · intro x hx
    rcases List.mem_cons.mp hx with rfl | hx'
    · exact ha
    · rcases List.mem_cons.mp hx' with rfl | hx''
      · exact hb
      · exact absurd hx'' (List.not_mem_nil _)

/-- A classified document's normalized text is the normalization of its raw
text. -/
theorem findDocByName_norm :
    ∀ {ts : List (List Char × List Char)} {kws : List (List Char)} {doc : FoundDoc},
      findDocByName ts kws = some doc → doc.norm = pyNormalize doc.text
  | [], _, _, h => by simp [findDocByName] at h
  | (n, c) :: rest, kws, doc, h => by
      simp only [findDocByName] at h
      split at h
      · obtain rfl : FoundDoc.mk n c (pyNormalize c) = doc := by simpa using h
        rfl
      · exact findDocByName_norm h

/-- The quote section never emits the unit-price unparse message when the
quote document is a classification result (its `norm` field is the
normalization of its text). -/
theorem devisProblems_no_priceUnparse (facture ah : Option FoundDoc)
    (dd : Option PyDate) (doc : FoundDoc) (hn : doc.norm = pyNormalize doc.text) :
    msgPriceUnparse ∉ devisProblems (some doc) facture ah dd := by
  intro h
  simp only [devisProblems, List.mem_append] at h
  rcases h with ((((h | h) | h) | h) | h)
  all_goals repeat' split at h
  all_goals (try exact absurd h (List.not_mem_nil _))
  all_goals simp only [List.mem_singleton] at h
  all_goals first
    | exact absurd h (by decide)
    | (have h2 := congrArg (List.take 9) h
       rw [take_mkDateWindow _ 9 (by decide)] at h2
       exact absurd h2 (by decide))
    | (have h2 := congrArg (List.take 9) h
       rw [take_mkPriceRange _ 9 (by decide)] at h2
       exact absurd h2 (by decide))
    | (obtain ⟨v, hv⟩ := price_parse_ok (by rw [← hn]; assumption)
       simp_all)

/-- The frame section never emits the frame-amount unparse message when the
frame document is a classification result. -/
theorem cadreProblems_no_amountUnparse (fields : List (List Char × List Char))
    (dd : Option PyDate) (doc : FoundDoc) (hn : doc.norm = pyNormalize doc.text) :
    msgCadreAmountUnparse ∉ cadreProblems fields (some doc) dd := by
  intro h
  simp only [cadreProblems, List.mem_append] at h
  rcases h with h | h
  all_goals repeat' split at h
  all_goals (try exact absurd h (List.not_mem_nil _))
  all_goals simp only [List.mem_singleton] at h
  all_goals first
    | exact absurd h (by decide)
    | (have h2 := congrArg (List.take 12) h
       rw [take_mkPrimeMismatch _ _ 12 (by decide)] at h2
       exact absurd h2 (by decide))
    | (have h2 := congrArg (List.take 12) h
       rw [take_mkPrimeUnparse _ 12 (by decide)] at h2
       exact absurd h2 (by decide))
    | (obtain ⟨v, hv⟩ := prime_parse_ok (by rw [← hn]; assumption)
       simp_all)

/-- **C9** — The two amount parse-failure problems (`DEVIS : impossible
d'interpréter le P.U TTC …` and `CADRE : impossible d'interpréter le montant
de prime dans le cadre.`) are never emitted, for any bundle and case fields:
every capture of the amount pattern, taken from a normalized text, cleans to
digits-dot-digits and always parses. -/
theorem amount_unparse_unreachable (fields pdfTexts : List (List Char × List Char)) :
    msgPriceUnparse ∉ (analyze_homelior fields pdfTexts).problems ∧
    msgCadreAmountUnparse ∉ (analyze_homelior fields pdfTexts).problems := by
  constructor
  · intro h
    have h' : msgPriceUnparse ∈ analyzeProblems fields pdfTexts := h
    rw [mem_analyzeProblems] at h'
    rcases h' with h' | h' | h' | h' | h' | h'
    · rcases hdev : findDocByName pdfTexts ["devis".data] with _ | doc
      · rw [hdev] at h'
        simp only [devisProblems, List.mem_singleton] at h'
        exact absurd h' (by decide)
      · rw [hdev] at h'
        exact absurd h'
          (devisProblems_no_priceUnparse _ _ _ doc (findDocByName_norm hdev))
    · exact absurd (cadreProblems_tag h') (by decide)
    · exact absurd (factureProblems_tag h') (by decide)
    · exact absurd (blProblems_tag h') (by decide)
    · exact absurd (ahProblems_tag h') (by decide)
    · exact absurd (aftProblems_tag h') (by decide)
  · intro h
    have h' : msgCadreAmountUnparse ∈ analyzeProblems fields pdfTexts := h
    rw [mem_analyzeProblems] at h'
    rcases h' with h' | h' | h' | h' | h' | h'
    · exact absurd (devisProblems_tag h') (by decide)
    · rcases hcad : findDocByName pdfTexts ["cadre".data] with _ | doc
      · rw [hcad] at h'
        simp only [cadreProblems, List.mem_singleton] at h'
        exact absurd h' (by decide)
      · rw [hcad] at h'
        exact absurd h'
          (cadreProblems_no_amountUnparse fields _ doc (findDocByName_norm hcad))
    · exact absurd (factureProblems_tag h') (by decide)
    · exact absurd (blProblems_tag h') (by decide)
    · exact absurd (ahProblems_tag h') (by decide)
    · exact absurd (aftProblems_tag h') (by decide)

/-! ## C2: the amount-tolerance condition -/

/-- A successful scan implies the anchoring literal occurs in the text. -/
theorem scanFirst_contains {α : Type} {lbl : List Char} {k : List Char → Option α} :
    ∀ {t : List Char} {v : α}, scanFirst lbl k t = some v → containsSub t lbl = true := by
  intro t
  induction t with
  | nil => intro v h; simp [scanFirst] at h
  | cons c t ih =>
      intro v h
      simp only [scanFirst] at h
      simp only [containsSub, Bool.or_eq_true]
      split at h
      case h_1 r hr =>
        split at h
        · exact Or.inl (by rw [hr]; rfl)
        · exact Or.inr (ih h)
      case h_2 => exact Or.inr (ih h)

/-- In the frame section, the mismatch message for the extracted amount and
the entered subsidy sits in the output exactly when the float comparison
`abs(cadre_val - prime_val) > 0.01` holds. -/
theorem cadreProblems_mismatch_iff (fields : List (List Char × List Char))
    (dd : Option PyDate) (doc : FoundDoc) (amt : List Char) (cv pv : PyF)
    (hamt : findPrimeAmount doc.norm = some amt)
    (hps : pyStrip (lookupField fields primeKey) ≠ [])
    (hpv : pyFloat (cleanPrime (pyStrip (lookupField fields primeKey))) = some pv)
    (hcv : pyFloat (cleanPrime amt) = some cv) :
    (mkPrimeMismatch amt (pyStrip (lookupField fields primeKey)) ∈
        cadreProblems fields (some doc) dd) ↔
      pyLt d001 (pyAbs (pySub cv pv)) = true := by
  have hphrase : containsSub doc.norm phrasePrime = true := scanFirst_contains hamt
  have hempty : ((pyStrip (lookupField fields primeKey)).isEmpty = true) = False := by
    simp [List.isEmpty_iff, hps]
  have hpart2 : mkPrimeMismatch amt (pyStrip (lookupField fields primeKey)) ∉
      (match findPropDate doc.norm with
       | some tok =>
           match dd with
           | some dd' =>
               (match parseDate tok with
                | some dp => if dp ≠ dd' then [msgPropDateMismatch] else []
                | none => [])
           | none => []
       | none => [msgPropLabelNotFound]) := by
    intro hmem
    repeat' split at hmem
    all_goals (try exact absurd hmem (List.not_mem_nil _))
    all_goals simp only [List.mem_singleton] at hmem
    all_goals
      (have h2 := congrArg (List.take 12) hmem
       rw [take_mkPrimeMismatch _ _ 12 (by decide)] at h2
       exact absurd h2 (by decide))
  simp only [cadreProblems, List.mem_append]
  constructor
  · rintro (hmem | hmem)
    · simp only [hphrase, hempty, hpv, hamt, hcv] at hmem
      simp only [Bool.not_true, Bool.false_eq_true, if_false, eq_self_iff_true,
        decide_eq_true_eq, ite_false, ite_true] at hmem
      split at hmem
      · assumption
      · exact absurd hmem (List.not_mem_nil _)
    · exact absurd hmem hpart2
  · intro hlt
    refine Or.inl ?_
    simp [hphrase, hempty, hpv, hamt, hcv, hlt]

/-- **C2 (amended)** — With the frame classified, an amount captured after
the subsidy phrase, and a nonempty case field whose cleaned value parses,
the mismatch problem is emitted exactly when the double-precision value
`abs(cadre_val - prime_val)` exceeds the double `0.01`.  (At the decimal
boundary this depends on rounding: 2538.90 vs 2538.91 — distance exactly
0.01 — is accepted, while 0.03 vs 0.04 — also distance exactly 0.01 — is
flagged; a 0.011 difference is flagged.) -/
theorem amount_tolerance_iff (fields pdfTexts : List (List Char × List Char))
    (doc : FoundDoc) (amt : List Char) (cv pv : PyF)
    (hcad : findDocByName pdfTexts ["cadre".data] = some doc)
    (hamt : findPrimeAmount doc.norm = some amt)
    (hps : pyStrip (lookupField fields primeKey) ≠ [])
    (hpv : pyFloat (cleanPrime (pyStrip (lookupField fields primeKey))) = some pv)
    (hcv : pyFloat (cleanPrime amt) = some cv) :
    (mkPrimeMismatch amt (pyStrip (lookupField fields primeKey)) ∈
        (analyze_homelior fields pdfTexts).problems) ↔
      pyLt d001 (pyAbs (pySub cv pv)) = true := by
  constructor
  · intro h
    have h' : mkPrimeMismatch amt (pyStrip (lookupField fields primeKey)) ∈
        analyzeProblems fields pdfTexts := h
    rw [mem_analyzeProblems] at h'
    rcases h' with h' | h' | h' | h' | h' | h'
    · have htag := devisProblems_tag h'
      rw [take_mkPrimeMismatch _ _ 5 (by decide)] at htag
      exact absurd htag (by decide)
    · rw [hcad] at h'
      exact (cadreProblems_mismatch_iff fields _ doc amt cv pv hamt hps hpv hcv).mp h'
    · have htag := factureProblems_tag h'
      rw [take_mkPrimeMismatch _ _ 5 (by decide)] at htag
      exact absurd htag (by decide)
    · have htag := blProblems_tag h'
      rw [take_mkPrimeMismatch _ _ 5 (by decide)] at htag
      exact absurd htag (by decide)
    · have htag := ahProblems_tag h'
      rw [take_mkPrimeMismatch _ _ 5 (by decide)] at htag
      exact absurd htag (by decide)
    · have htag := aftProblems_tag h'
      rw [take_mkPrimeMismatch _ _ 5 (by decide)] at htag
      exact absurd htag (by decide)
  · intro hlt
    show mkPrimeMismatch amt (pyStrip (lookupField fields primeKey)) ∈
        analyzeProblems fields pdfTexts
    rw [mem_analyzeProblems]
    refine Or.inr (Or.inl ?_)
    rw [hcad]
    exact (cadreProblems_mismatch_iff fields _ doc amt cv pv hamt hps hpv hcv).mpr hlt

/-- Counterexample to C2 as stated: the frame amount `0.04` and the entered
`0.03` differ by exactly 0.01 in decimal, yet the mismatch problem IS
emitted — in doubles the difference computes to slightly more than `0.01`. -/
theorem amount_tolerance_counterexample :
    findPrimeAmount (pyNormalize ("une prime d un montant de 0.04 euros".data)) =
        some ("0.04".data) ∧
    pyStrip (lookupField [("Prime CEE".data, "0.03".data)] primeKey) = "0.03".data ∧
    mkPrimeMismatch ("0.04".data) ("0.03".data) ∈
      (analyze_homelior [("Prime CEE".data, "0.03".data)]
        [("cadre.pdf".data, "une prime d un montant de 0.04 euros".data)]).problems := by
  refine ⟨by decide, by decide, by decide⟩

/-- The double parsed from the scenario-C frame amount. -/
def c2cv : PyF := (pyFloat (cleanPrime ("2538.91".data))).getD .nan

/-- The double parsed from the scenario-C case field. -/
def c2pv : PyF := (pyFloat (cleanPrime (pyStrip (lookupField c3fields primeKey)))).getD .nan

/-- Witness for the amended C2 at the 2538.90/2538.91 boundary pair (there
the exact-0.01 decimal difference is accepted). -/
theorem amount_tolerance_iff_witness :
    (findDocByName c3texts ["cadre".data] =
        some ⟨"cadre.pdf".data, "une prime d un montant de 2538.91 euros".data,
              pyNormalize ("une prime d un montant de 2538.91 euros".data)⟩ ∧
     findPrimeAmount (pyNormalize ("une prime d un montant de 2538.91 euros".data)) =
        some ("2538.91".data) ∧
     pyStrip (lookupField c3fields primeKey) ≠ [] ∧
     pyFloat (cleanPrime (pyStrip (lookupField c3fields primeKey))) = some c2pv ∧
     pyFloat (cleanPrime ("2538.91".data)) = some c2cv) ∧
    ((mkPrimeMismatch ("2538.91".data) (pyStrip (lookupField c3fields primeKey)) ∈
        (analyze_homelior c3fields c3texts).problems) ↔
      pyLt d001 (pyAbs (pySub c2cv c2pv)) = true) :=
  ⟨⟨by decide, by decide, by decide, by decide, by decide⟩,
   amount_tolerance_iff c3fields c3texts
     ⟨"cadre.pdf".data, "une prime d un montant de 2538.91 euros".data,
      pyNormalize ("une prime d un montant de 2538.91 euros".data)⟩
     ("2538.91".data) c2cv c2pv
     (by decide) (by decide) (by decide) (by decide) (by decide)⟩

/-! ## C8: idempotence of `_normalize` -/

/-- Lower-casing either fixes a character or yields one of the 26 lowercase
letters. -/
theorem pyLowerC_split (c : Char) : pyLowerC c = c ∨
    pyLowerC c ∈ ['a', 'b', 'c', 'd', 'e', 'f', 'g', 'h', 'i', 'j', 'k', 'l',
      'm', 'n', 'o', 'p', 'q', 'r', 's', 't', 'u', 'v', 'w', 'x', 'y', 'z'] := by
  unfold pyLowerC
  split
  all_goals first
    | exact Or.inl rfl
    | exact Or.inr (by decide)

/-- Every character produced by the character phase is a fixed point of the
character phase. -/
theorem charFold_fix : ∀ {c d : Char}, d ∈ charFold c → charFold d = [d] := by
  intro c d hd
  have htab : ∀ p ∈ accentTable, charFold (pyLowerC p.2) = [pyLowerC p.2] := by decide
  have hlow : ∀ x ∈ ['a', 'b', 'c', 'd', 'e', 'f', 'g', 'h', 'i', 'j', 'k', 'l',
      'm', 'n', 'o', 'p', 'q', 'r', 's', 't', 'u', 'v', 'w', 'x', 'y', 'z'],
      charFold x = [x] := by decide
  unfold charFold nfkdStrip at hd
  split at hd
  · simp at hd
  · split at hd
    · simp only [List.map_cons, List.map_nil, List.mem_singleton] at hd
      subst hd
      decide
    · split at hd
      case h_1 b heq =>
        simp only [List.map_cons, List.map_nil, List.mem_singleton] at hd
        subst hd
        obtain ⟨p, hfind, hp2⟩ : ∃ p, accentTable.find? (fun p => p.1 = c) = some p ∧ p.2 = b := by
          unfold accentBase at heq
          cases hf : accentTable.find? (fun p => p.1 = c) with
          | none => rw [hf] at heq; simp at heq
          | some p => rw [hf] at heq; exact ⟨p, rfl, by simpa using heq⟩
        have hmem := List.mem_of_find?_eq_some hfind
        rw [← hp2]
        exact htab p hmem
      case h_2 heq =>
        simp only [List.map_cons, List.map_nil, List.mem_singleton] at hd
        subst hd
        rcases pyLowerC_split c with h | h
        · rw [h]
          unfold charFold nfkdStrip
          rw [if_neg ‹¬combiningMark c = true›, if_neg ‹¬c = nbsp›, heq]
          simp [h]
        · exact hlow _ h

/-- Flattening the character phase over fixed points is the identity. -/
theorem flatten_charFold_id : ∀ {l : List Char}, (∀ c ∈ l, charFold c = [c]) →
    (l.map charFold).flatten = l
  | [], _ => rfl
  | c :: t, h => by
      simp only [List.map_cons, List.flatten_cons, h c (List.mem_cons_self _ _)]
      exact congrArg (c :: ·) (flatten_charFold_id (fun x hx => h x (List.mem_cons_of_mem _ hx)))

/-- Characters of the collapsed list are spaces or characters of the input. -/
theorem mem_collapseAux :
    ∀ (xs : List Char) (b : Bool) {c : Char}, c ∈ collapseAux b xs →
      c = ' ' ∨ c ∈ xs
  | [], _, _, hm => by simp [collapseAux] at hm
  | d :: t, b, c, hm => by
      cases b <;> simp only [collapseAux] at hm <;> split at hm
      · rcases List.mem_cons.mp hm with rfl | hm'
        · exact Or.inl rfl
        · rcases mem_collapseAux t true hm' with h | h
          · exact Or.inl h
          · exact Or.inr (List.mem_cons_of_mem _ h)
      · rcases List.mem_cons.mp hm with rfl | hm'
        · exact Or.inr (List.mem_cons_self _ _)
        · rcases mem_collapseAux t false hm' with h | h
          · exact Or.inl h
          · exact Or.inr (List.mem_cons_of_mem _ h)
      · rcases mem_collapseAux t true hm with h | h
        · exact Or.inl h
        · exact Or.inr (List.mem_cons_of_mem _ h)
      · rcases List.mem_cons.mp hm with rfl | hm'
        · exact Or.inr (List.mem_cons_self _ _)
        · rcases mem_collapseAux t false hm' with h | h
          · exact Or.inl h
          · exact Or.inr (List.mem_cons_of_mem _ h)

/-- Replacing no-break spaces in an nbsp-free list is the identity. -/
theorem replaceNbsp_id {l : List Char} (h : ∀ c ∈ l, c ≠ nbsp) :
    replaceNbsp l = l := by
  unfold replaceNbsp
  rw [List.map_congr_left (fun c hc => if_neg (h c hc))]
  exact List.map_id l

/-- Adjacent characters of a collapsed list are never both whitespace. -/
def NoWsRun (l : List Char) : Prop :=
  List.Chain' (fun a b => ¬(isPySpace a = true ∧ isPySpace b = true)) l

/-- The head surviving an in-run collapse is not whitespace. -/
theorem collapseAux_true_head :
    ∀ {t : List Char} {y : Char} {r : List Char},
      collapseAux true t = y :: r → isPySpace y = false
  | [], y, r, h => by simp [collapseAux] at h
  | d :: t, y, r, h => by
      simp only [collapseAux] at h
      split at h
      · exact collapseAux_true_head h
      · obtain rfl : d = y := (List.cons.injEq _ _ _ _ ▸ h).1
        simp_all

/-- Collapsing leaves no two adjacent whitespace characters. -/
theorem collapse_chain : ∀ (xs : List Char) (b : Bool), NoWsRun (collapseAux b xs)
  | [], b => by cases b <;> exact List.chain'_nil
  | d :: t, b => by
      cases b <;> simp only [collapseAux] <;> split
      · refine List.chain'_cons'.mpr ⟨?_, collapse_chain t true⟩
        intro y hy hpair
        cases hc : collapseAux true t with
        | nil => rw [hc] at hy; simp at hy
        | cons z r =>
            rw [hc] at hy
            simp only [List.head?_cons, Option.mem_def, Option.some_inj] at hy
            subst hy
            rw [collapseAux_true_head hc] at hpair
            exact absurd hpair.2 (by simp)
      · refine List.chain'_cons'.mpr ⟨?_, collapse_chain t false⟩
        intro y _ hpair
        simp_all
      · exact collapse_chain t true
      · refine List.chain'_cons'.mpr ⟨?_, collapse_chain t false⟩
        intro y _ hpair
        simp_all

/-- Collapsing a list that has only plain single spaces is the identity. -/
theorem collapse_eq_self :
    ∀ {l : List Char}, (∀ c ∈ l, isPySpace c = true → c = ' ') → NoWsRun l →
      collapseAux false l = l
  | [], _, _ => rfl
  | c :: t, hsp, hchain => by
      simp only [collapseAux]
      split
      case isTrue hc =>
        obtain rfl : c = ' ' := hsp c (List.mem_cons_self _ _) hc
        cases t with
        | nil => rfl
        | cons d t' =>
            have hnd : isPySpace d = false := by
              have := (List.chain'_cons.mp hchain).1
              by_contra hcon
              exact this ⟨hc, by simpa using hcon⟩
            have ih : collapseAux false (d :: t') = d :: t' :=
              collapse_eq_self (fun x hx => hsp x (List.mem_cons_of_mem _ hx))
                (List.chain'_cons.mp hchain).2
            simp only [collapseAux, hnd, Bool.false_eq_true, if_false] at ih ⊢
            exact congrArg (' ' :: ·) ih
      case isFalse hc =>
        exact congrArg (c :: ·)
          (collapse_eq_self (fun x hx => hsp x (List.mem_cons_of_mem _ hx))
            ((List.chain'_cons'.mp hchain).2))

/-- `dropWhile` preserves the no-run property. -/
theorem noWsRun_dropWhile : ∀ {l : List Char}, NoWsRun l →
    NoWsRun (l.dropWhile isPySpace)
  | [], h => h
  | c :: t, h => by
      by_cases hc : isPySpace c = true
      · rw [List.dropWhile_cons_of_pos (by simpa using hc)]
        exact noWsRun_dropWhile (List.chain'_cons'.mp h).2
      · rwa [List.dropWhile_cons_of_neg (by simpa using hc)]

/-- Reversal preserves the no-run property. -/
theorem noWsRun_reverse {l : List Char} (h : NoWsRun l) : NoWsRun l.reverse := by
  rw [NoWsRun, List.chain'_reverse]
  exact List.Chain'.imp (fun a b hab h2 => hab ⟨h2.2, h2.1⟩) h

/-- Stripping preserves the no-run property. -/
theorem noWsRun_pyStrip {l : List Char} (h : NoWsRun l) : NoWsRun (pyStrip l) := by
  unfold pyStrip
  exact noWsRun_reverse (noWsRun_dropWhile (noWsRun_reverse (noWsRun_dropWhile h)))

/-- `dropWhile` is idempotent. -/
theorem dropWhile_idem (p : Char → Bool) :
    ∀ (l : List Char), (l.dropWhile p).dropWhile p = l.dropWhile p
  | [] => rfl
  | c :: t => by
      by_cases hc : p c = true
      · rw [List.dropWhile_cons_of_pos hc]
        exact dropWhile_idem p t
      · rw [List.dropWhile_cons_of_neg (by simpa using hc),
            List.dropWhile_cons_of_neg (by simpa using hc)]

/-- The right strip, separated out. -/
def rstrip (l : List Char) : List Char := (l.reverse.dropWhile isPySpace).reverse

/-- Stripping is right-strip after left-strip. -/
theorem pyStrip_eq_rstrip_lstrip (l : List Char) :
    pyStrip l = rstrip (l.dropWhile isPySpace) := rfl

/-- The right strip is idempotent. -/
theorem rstrip_idem (l : List Char) : rstrip (rstrip l) = rstrip l := by
  unfold rstrip
  rw [List.reverse_reverse, dropWhile_idem]

/-- The right strip shortens a list from the right: it yields a prefix. -/
theorem rstrip_prefix (l : List Char) : List.IsPrefix (rstrip l) l := by
  refine ⟨(l.reverse.takeWhile isPySpace).reverse, ?_⟩
  unfold rstrip
  rw [← List.reverse_append, List.takeWhile_append_dropWhile, List.reverse_reverse]

/-- Left-stripping an already left-stripped list after a right strip does
nothing: the head is unchanged and already fails the predicate. -/
theorem lstrip_rstrip (m : List Char) (hm : m.dropWhile isPySpace = m) :
    (rstrip m).dropWhile isPySpace = rstrip m := by
  cases hr : rstrip m with
  | nil => rfl
  | cons c r =>
      obtain ⟨rest, hrest⟩ := rstrip_prefix m
      rw [hr] at hrest
      have hc : isPySpace c = false := by
        rw [← hrest] at hm
        by_contra hcon
        have hcon' : isPySpace c = true := by simpa using hcon
        rw [List.cons_append, List.dropWhile_cons_of_pos hcon'] at hm
        have hlen := congrArg List.length hm
        rw [List.length_cons] at hlen
        have hle : ((r ++ rest).dropWhile isPySpace).length ≤ (r ++ rest).length :=
          (List.dropWhile_sublist _).length_le
        omega
      exact List.dropWhile_cons_of_neg (by simpa using hc)

/-- Python's `strip` is idempotent. -/
theorem pyStrip_idem (l : List Char) : pyStrip (pyStrip l) = pyStrip l := by
  rw [pyStrip_eq_rstrip_lstrip l, pyStrip_eq_rstrip_lstrip,
      lstrip_rstrip (l.dropWhile isPySpace) (dropWhile_idem isPySpace l), rstrip_idem]

/-- **C8** — `_normalize` is idempotent: normalizing a normalized text
changes nothing.  Every character surviving one pass is a fixed point of the
character phase, the no-break spaces are gone, whitespace is single plain
spaces, and the ends are trimmed, so the second pass is the identity. -/
theorem normalize_idempotent (x : List Char) :
    pyNormalize (pyNormalize x) = pyNormalize x := by
  have hfix : ∀ c ∈ pyNormalize x, charFold c = [c] := by
    intro c hc
    have hc1 : c ∈ collapseAux false (replaceNbsp ((x.map charFold).flatten)) :=
      pyStrip_subset hc
    rcases mem_collapseAux _ false hc1 with rfl | hc2
    · decide
    · unfold replaceNbsp at hc2
      obtain ⟨d0, hd0, hcd⟩ := List.mem_map.mp hc2
      by_cases hnb : d0 = nbsp
      · rw [if_pos hnb] at hcd
        rw [← hcd]
        decide
      · rw [if_neg hnb] at hcd
        subst hcd
        obtain ⟨l, hl, hmem⟩ := List.mem_flatten.mp hd0
        obtain ⟨c0, _, rfl⟩ := List.mem_map.mp hl
        exact charFold_fix hmem
  have hspy : ∀ c ∈ pyNormalize x, isPySpace c = true → c = ' ' :=
    fun c hc => pyNormalize_space hc
  have hchain : NoWsRun (pyNormalize x) :=
    noWsRun_pyStrip (collapse_chain (replaceNbsp ((x.map charFold).flatten)) false)
  have hnonbsp : ∀ c ∈ pyNormalize x, c ≠ nbsp := by
    intro c hc hcon
    subst hcon
    exact absurd (hspy _ hc (by decide)) (by decide)
  show pyStrip (collapseWs (replaceNbsp (((pyNormalize x).map charFold).flatten))) =
    pyNormalize x
  rw [flatten_charFold_id hfix, replaceNbsp_id hnonbsp,
      (show collapseWs (pyNormalize x) = pyNormalize x from collapse_eq_self hspy hchain)]
  exact pyStrip_idem (collapseWs (replaceNbsp ((x.map charFold).flatten)))

end Homelior


